import Mathlib

/-!
Verification development for the Information-Broker repository.

Each section shallowly embeds one part of the Go source (file and line
references in the doc comments) and proves the corresponding claims.
Strings are modelled as `List Char`, Go `time.Time` as `Nat` ticks,
Go `time.Duration` as `Nat`, nullable columns as `Option`.
-/

set_option maxHeartbeats 4000000

/-! ### Definitions: shallow embedding of the Go source -/

structure ArticleRow where
  title : List Char
  url : List Char
  publish_date : Option Nat
  summary : Option (List Char)
  full_content : Option (List Char)
  fetch_time : Nat
  posted_to_discord : Bool
  feed_url : Option (List Char)
  content_hash : Option (List Char)
  fetch_duration_ms : Option Int
  deriving Repr, DecidableEq

def coalesce {α : Type} : Option α → Option α → Option α
  | some v, _ => some v
  | none, old => old

def UpsertArticle (existing : Option ArticleRow) (incoming : ArticleRow) : ArticleRow :=
  match existing with
  | none => incoming
  | some e =>
    { title := incoming.title
      url := e.url
      publish_date := coalesce incoming.publish_date e.publish_date
      summary := coalesce incoming.summary e.summary
      full_content := coalesce incoming.full_content e.full_content
      fetch_time := incoming.fetch_time
      posted_to_discord := incoming.posted_to_discord
      feed_url := coalesce incoming.feed_url e.feed_url
      content_hash := coalesce incoming.content_hash e.content_hash
      fetch_duration_ms := coalesce incoming.fetch_duration_ms e.fetch_duration_ms }

structure SummarizationRequest where
  articleURL : List Char
  articleTitle : List Char
  content : List Char
  model : List Char
  priority : Int
  enqueuedAt : Nat
  deriving Repr, DecidableEq

inductive EnqueueResult where
  | ok : EnqueueResult
  | queueFull : Nat → EnqueueResult
  deriving Repr, DecidableEq

def EnqueueSummarization (cap : Nat) (defaultModel : List Char) (now : Nat)
    (queue : List SummarizationRequest) (request : SummarizationRequest) :
    EnqueueResult × List SummarizationRequest :=
  let request := { request with enqueuedAt := now }
  let request := if request.model = [] then { request with model := defaultModel } else request
  if queue.length < cap then
    (EnqueueResult.ok, queue ++ [request])
  else
    (EnqueueResult.queueFull cap, queue)

inductive CircuitBreakerState where
  | closed : CircuitBreakerState
  | opened : CircuitBreakerState
  | halfOpen : CircuitBreakerState
  deriving Repr, DecidableEq

structure CircuitBreakerConfig where
  failureThreshold : Nat
  successThreshold : Nat
  timeout : Nat
  resetTimeout : Nat
  deriving Repr, DecidableEq

structure CircuitBreaker where
  config : CircuitBreakerConfig
  state : CircuitBreakerState
  failureCount : Nat
  successCount : Nat
  lastFailureTime : Option Nat
  lastSuccessTime : Option Nat
  deriving Repr, DecidableEq

def CircuitBreaker.initial (config : CircuitBreakerConfig) : CircuitBreaker :=
  { config := config, state := CircuitBreakerState.closed,
    failureCount := 0, successCount := 0,
    lastFailureTime := none, lastSuccessTime := none }

def CircuitBreaker.canExecute (cb : CircuitBreaker) (now : Nat) :
    Bool × CircuitBreaker :=
  match cb.state with
  | CircuitBreakerState.closed =>
    match cb.lastFailureTime with
    | some lf =>
      if now - lf > cb.config.resetTimeout then
        (true, { cb with failureCount := 0 })
      else
        (true, cb)
    | none => (true, cb)
  | CircuitBreakerState.opened =>
    if now - (cb.lastFailureTime.getD 0) > cb.config.timeout then
      (true, { cb with state := CircuitBreakerState.halfOpen, successCount := 0 })
    else
      (false, cb)
  | CircuitBreakerState.halfOpen => (true, cb)

def CircuitBreaker.recordFailure (cb : CircuitBreaker) (now : Nat) : CircuitBreaker :=
  let cb := { cb with failureCount := cb.failureCount + 1, lastFailureTime := some now }
  match cb.state with
  | CircuitBreakerState.closed =>
    if cb.failureCount ≥ cb.config.failureThreshold then
      { cb with state := CircuitBreakerState.opened }
    else cb
  | CircuitBreakerState.halfOpen =>
    { cb with state := CircuitBreakerState.opened, successCount := 0 }
  | CircuitBreakerState.opened => cb

def CircuitBreaker.recordSuccess (cb : CircuitBreaker) (now : Nat) : CircuitBreaker :=
  let cb := { cb with lastSuccessTime := some now }
  match cb.state with
  | CircuitBreakerState.halfOpen =>
    let cb := { cb with successCount := cb.successCount + 1 }
    if cb.successCount ≥ cb.config.successThreshold then
      { cb with state := CircuitBreakerState.closed, failureCount := 0, successCount := 0 }
    else cb
  | CircuitBreakerState.closed =>
    { cb with failureCount := 0 }
  | CircuitBreakerState.opened => cb

structure ExecResult where
  rejectedOpen : Bool
  invoked : Bool
  breaker : CircuitBreaker
  deriving Repr, DecidableEq

def CircuitBreaker.Execute (cb : CircuitBreaker) (now : Nat) (fnOk : Bool) : ExecResult :=
  match cb.canExecute now with
  | (false, cb1) => { rejectedOpen := true, invoked := false, breaker := cb1 }
  | (true, cb1) =>
    if fnOk then
      { rejectedOpen := false, invoked := true, breaker := cb1.recordSuccess now }
    else
      { rejectedOpen := false, invoked := true, breaker := cb1.recordFailure now }

def CircuitBreaker.execRepeat (cb : CircuitBreaker) (now : Nat) (fnOk : Bool) :
    Nat → CircuitBreaker
  | 0 => cb
  | Nat.succ n => CircuitBreaker.execRepeat (cb.Execute now fnOk).breaker now fnOk n

def cbWitnessConfig : CircuitBreakerConfig :=
  { failureThreshold := 2, successThreshold := 2, timeout := 10, resetTimeout := 100 }

def cbWitnessOpen : CircuitBreaker :=
  { config := cbWitnessConfig, state := CircuitBreakerState.opened,
    failureCount := 2, successCount := 0,
    lastFailureTime := some 5, lastSuccessTime := none }

def cbWitnessHalfOpen : CircuitBreaker :=
  { config := cbWitnessConfig, state := CircuitBreakerState.halfOpen,
    failureCount := 2, successCount := 0,
    lastFailureTime := some 5, lastSuccessTime := none }

def lastIndexChar (c : Char) : List Char → Option Nat
  | [] => none
  | x :: xs =>
    match lastIndexChar c xs with
    | some j => some (j + 1)
    | none => if x = c then some 0 else none

def LastIndex (l : List Char) (c : Char) : Int :=
  match lastIndexChar c l with
  | none => -1
  | some j => (j : Int)

def ellipsisDots : List Char := ['.', '.', '.']

def truncateString (s : List Char) (maxLength : Int) : Option (List Char) :=
  if (s.length : Int) ≤ maxLength then
    some s
  else if maxLength > 3 then
    let truncated := s.take (maxLength - 3).toNat
    let lastSpace := LastIndex truncated ' '
    if lastSpace > maxLength / 2 then
      some (truncated.take lastSpace.toNat ++ ellipsisDots)
    else
      some (truncated ++ ellipsisDots)
  else if 0 ≤ maxLength - 3 then
    some (s.take (maxLength - 3).toNat ++ ellipsisDots)
  else
    none

def splitSlash : List Char → List (List Char)
  | [] => [[]]
  | c :: rest =>
    if c = '/' then
      [] :: splitSlash rest
    else
      match splitSlash rest with
      | p :: ps => (c :: p) :: ps
      | [] => [[c]]

def joinSlash : List (List Char) → List Char
  | [] => []
  | [p] => p
  | p :: ps => p ++ '/' :: joinSlash ps

def tokenHidden : List Char := "***TOKEN_HIDDEN***".toList

def sanitizeWebhookURL (webhookURL : List Char) : List Char :=
  let parts := splitSlash webhookURL
  if parts.length ≥ 7 then
    joinSlash (parts.dropLast ++ [tokenHidden])
  else
    joinSlash parts

inductive NetOutcome where
  | status : Nat → NetOutcome
  | transportError : NetOutcome
  deriving Repr, DecidableEq

inductive WebhookSendError where
  | messageTooLarge : Nat → WebhookSendError
  | discordAPIError : Nat → WebhookSendError
  | networkError : WebhookSendError
  deriving Repr, DecidableEq

def extractStatusCode : WebhookSendError → Nat
  | WebhookSendError.discordAPIError code => code
  | _ => 0

def sendWebhookMessage (jsonLen : Nat) (net : NetOutcome) :
    Option WebhookSendError × Bool :=
  if jsonLen > 2000 then
    (some (WebhookSendError.messageTooLarge jsonLen), false)
  else
    match net with
    | NetOutcome.transportError => (some WebhookSendError.networkError, true)
    | NetOutcome.status code =>
      if 200 ≤ code ∧ code < 300 then
        (none, true)
      else
        (some (WebhookSendError.discordAPIError code), true)

structure DiscordErrorLogRow where
  webhookURL : List Char
  retryAttempt : Nat
  statusCode : Nat
  deriving Repr, DecidableEq

structure SendOutcome where
  success : Bool
  attemptsMade : Nat
  networkCalls : Nat
  logs : List DiscordErrorLogRow
  lastError : Option WebhookSendError
  deriving Repr, DecidableEq

def sendAttemptLoop (webhookURL : List Char) (jsonLen : Nat)
    (net : Nat → NetOutcome) (attempt : Nat) : Nat → SendOutcome
  | 0 => { success := false, attemptsMade := 0, networkCalls := 0,
           logs := [], lastError := none }
  | Nat.succ r =>
    match sendWebhookMessage jsonLen (net attempt) with
    | (none, nc) =>
      { success := true, attemptsMade := 1,
        networkCalls := if nc then 1 else 0, logs := [], lastError := none }
    | (some e, nc) =>
      let row : DiscordErrorLogRow :=
        { webhookURL := sanitizeWebhookURL webhookURL,
          retryAttempt := attempt, statusCode := extractStatusCode e }
      let rest := sendAttemptLoop webhookURL jsonLen net (attempt + 1) r
      { success := rest.success,
        attemptsMade := rest.attemptsMade + 1,
        networkCalls := rest.networkCalls + (if nc then 1 else 0),
        logs := row :: rest.logs,
        lastError := match r with
          | 0 => some e
          | Nat.succ _ => rest.lastError }

def SendArticleToDiscord (webhookURL : List Char) (jsonLen : Nat)
    (maxRetries : Nat) (net : Nat → NetOutcome) : SendOutcome :=
  sendAttemptLoop webhookURL jsonLen net 1 (maxRetries + 1)

def oversizedSendOutcome : SendOutcome :=
  SendArticleToDiscord [] 2001 2 (fun _ => NetOutcome.transportError)

def goIsSpace (c : Char) : Bool :=
  c = ' ' || c = '\t' || c = '\n' || c.toNat = 11 || c.toNat = 12 ||
    c.toNat = 13 || c.toNat = 133 || c.toNat = 160

def fieldsGo : List Char → List Char → List (List Char)
  | cur, [] => if cur = [] then [] else [cur.reverse]
  | cur, c :: rest =>
    if goIsSpace c then
      if cur = [] then fieldsGo [] rest else cur.reverse :: fieldsGo [] rest
    else
      fieldsGo (c :: cur) rest

def Fields (s : List Char) : List (List Char) := fieldsGo [] s

def joinSpace : List (List Char) → List Char
  | [] => []
  | [w] => w
  | w :: ws => w ++ ' ' :: joinSpace ws

def enforceSummaryWordLimit (summary : List Char) (maxWords : Nat) : List Char :=
  let words := Fields summary
  if words.length > maxWords + 20 then
    joinSpace (words.take maxWords) ++ ellipsisDots
  else
    summary

def SummarizeArticleAttempts (apiOk : Nat → Bool) (start : Nat) :
    Nat → Bool × Nat
  | 0 => (false, 0)
  | Nat.succ n =>
    if apiOk start then
      (true, 1)
    else
      let rest := SummarizeArticleAttempts apiOk (start + 1) n
      (rest.1, rest.2 + 1)

def processRequestAttempts (apiOk : Nat → Bool) (ollamaRetries start : Nat) :
    Nat → Bool × Nat
  | 0 => (false, 0)
  | Nat.succ n =>
    let inner := SummarizeArticleAttempts apiOk start ollamaRetries
    if inner.1 then
      (true, inner.2)
    else
      let rest := processRequestAttempts apiOk ollamaRetries (start + inner.2) n
      (rest.1, inner.2 + rest.2)

def processRequestCalls (apiOk : Nat → Bool) (schedRetries ollamaRetries : Nat) :
    Bool × Nat :=
  processRequestAttempts apiOk ollamaRetries 0 schedRetries

structure AlertRule where
  name : List Char
  threshold : Rat
  operator : List Char
  severity : List Char
  description : List Char
  labels : List (List Char × List Char)
  deriving Repr, DecidableEq

structure Alert where
  name : List Char
  status : List Char
  severity : List Char
  description : List Char
  value : Rat
  threshold : Rat
  labels : List (List Char × List Char)
  startsAt : Nat
  endsAt : Option Nat
  deriving Repr, DecidableEq

def shouldAlert (rule : AlertRule) (value : Rat) : Bool :=
  if rule.operator = "gt".toList then value > rule.threshold
  else if rule.operator = "lt".toList then value < rule.threshold
  else if rule.operator = "eq".toList then value = rule.threshold
  else if rule.operator = "ne".toList then value ≠ rule.threshold
  else false

def evaluateRuleStep (rule : AlertRule) (value : Rat) (active : Option Alert)
    (now : Nat) : Option Alert × List Alert :=
  if shouldAlert rule value then
    match active with
    | none =>
      let alert : Alert :=
        { name := rule.name, status := "firing".toList,
          severity := rule.severity, description := rule.description,
          value := value, threshold := rule.threshold,
          labels := rule.labels, startsAt := now, endsAt := none }
      (some alert, [alert])
    | some a => (some a, [])
  else
    match active with
    | some a =>
      let resolved : Alert :=
        { a with status := "resolved".toList, endsAt := some now }
      (none, [resolved])
    | none => (none, [])

def alertRuleWitness : AlertRule :=
  { name := "high".toList, threshold := 5, operator := "gt".toList,
    severity := "critical".toList, description := [], labels := [] }

def alertWitnessFiring : Alert :=
  { name := "high".toList, status := "firing".toList,
    severity := "critical".toList, description := [],
    value := 7, threshold := 5, labels := [], startsAt := 3, endsAt := none }

def isRegexSpace (c : Char) : Bool :=
  c = ' ' || c = '\t' || c = '\n' || c.toNat = 12 || c.toNat = 13

def dropCaseInsensitive : List Char → List Char → Option (List Char)
  | [], s => some s
  | _ :: _, [] => none
  | t :: ts, c :: cs =>
    if c.toLower = t.toLower then dropCaseInsensitive ts cs else none

def dropRegexSpaces : List Char → List Char
  | [] => []
  | c :: cs => if isRegexSpace c then dropRegexSpaces cs else c :: cs

def expectGt : List Char → Option (List Char)
  | [] => none
  | c :: cs => if c = '>' then some cs else none

def matchOpenTag (tag : List Char) : List Char → Option (List Char)
  | [] => none
  | c :: cs =>
    if c = '<' then
      (dropCaseInsensitive tag cs).bind (fun s2 => expectGt (dropRegexSpaces s2))
    else none

def matchCloseTag (tag : List Char) : List Char → Option (List Char)
  | a :: b :: cs =>
    if a = '<' && b = '/' then
      (dropCaseInsensitive tag cs).bind (fun s2 => expectGt (dropRegexSpaces s2))
    else none
  | _ => none

def matchStrayTagRest (tag : List Char) : List Char → Option (List Char)
  | [] => none
  | b :: rest =>
    if b = '/' then
      (dropCaseInsensitive tag rest).bind (fun s2 => expectGt (dropRegexSpaces s2))
    else
      (dropCaseInsensitive tag (b :: rest)).bind
        (fun s2 => expectGt (dropRegexSpaces s2))

def matchStrayTag (tag : List Char) : List Char → Option (List Char)
  | [] => none
  | c :: cs =>
    if c = '<' then matchStrayTagRest tag cs else none

def findCloseTag (tag : List Char) : List Char → Option (List Char)
  | [] => none
  | c :: cs =>
    match matchCloseTag tag (c :: cs) with
    | some r => some r
    | none => findCloseTag tag cs

def matchPairedTag (tag : List Char) (s : List Char) : Option (List Char) :=
  (matchOpenTag tag s).bind (findCloseTag tag)

def stripPairedFuel (tag : List Char) : Nat → List Char → List Char
  | 0, s => s
  | Nat.succ _, [] => []
  | Nat.succ f, c :: cs =>
    match matchPairedTag tag (c :: cs) with
    | some rem => stripPairedFuel tag f rem
    | none => c :: stripPairedFuel tag f cs

def stripPaired (tag : List Char) (s : List Char) : List Char :=
  stripPairedFuel tag s.length s

def stripStrayFuel (tag : List Char) : Nat → List Char → List Char
  | 0, s => s
  | Nat.succ _, [] => []
  | Nat.succ f, c :: cs =>
    match matchStrayTag tag (c :: cs) with
    | some rem => stripStrayFuel tag f rem
    | none => c :: stripStrayFuel tag f cs

def stripStray (tag : List Char) (s : List Char) : List Char :=
  stripStrayFuel tag s.length s

def tagThink : List Char := ['t', 'h', 'i', 'n', 'k']

def tagThinking : List Char := ['t', 'h', 'i', 'n', 'k', 'i', 'n', 'g']

def tagReason : List Char := ['r', 'e', 'a', 's', 'o', 'n']

def tagAnalysis : List Char := ['a', 'n', 'a', 'l', 'y', 's', 'i', 's']

def openTagLit (tag : List Char) : List Char := '<' :: (tag ++ ['>'])

def closeTagLit (tag : List Char) : List Char := '<' :: '/' :: (tag ++ ['>'])

def stripReasoningTags (s : List Char) : List Char :=
  let s := stripPaired tagThink s
  let s := stripStray tagThink s
  let s := stripPaired tagThinking s
  let s := stripStray tagThinking s
  let s := stripPaired tagReason s
  let s := stripStray tagReason s
  let s := stripPaired tagAnalysis s
  let s := stripStray tagAnalysis s
  s

def collapseWSFuel : Nat → List Char → List Char
  | 0, s => s
  | Nat.succ _, [] => []
  | Nat.succ f, c :: cs =>
    if isRegexSpace c then ' ' :: collapseWSFuel f (dropRegexSpaces cs)
    else c :: collapseWSFuel f cs

def collapseWS (s : List Char) : List Char := collapseWSFuel s.length s

def TrimSpace (s : List Char) : List Char :=
  ((s.dropWhile (fun c => goIsSpace c)).reverse.dropWhile
    (fun c => goIsSpace c)).reverse

def filteredFallbackMessage : List Char :=
  "Summary content was filtered out - please check model configuration".toList

def cleanSummaryContent (summary : List Char) : List Char :=
  let summary := stripReasoningTags summary
  let summary := collapseWS summary
  let summary := TrimSpace summary
  if summary = [] then filteredFallbackMessage else summary

def noAdjacentSpaces : List Char → Bool
  | [] => true
  | [_] => true
  | x :: y :: rest => (!(isRegexSpace x && isRegexSpace y)) && noAdjacentSpaces (y :: rest)

/-! ### Theorems -/

theorem upsertArticle_conflict_semantics (e incoming : ArticleRow) :
    let r := UpsertArticle (some e) incoming
    r.title = incoming.title ∧
    r.fetch_time = incoming.fetch_time ∧
    r.posted_to_discord = incoming.posted_to_discord ∧
    (incoming.publish_date = none → r.publish_date = e.publish_date) ∧
    (∀ v, incoming.publish_date = some v → r.publish_date = some v) ∧
    (incoming.summary = none → r.summary = e.summary) ∧
    (∀ v, incoming.summary = some v → r.summary = some v) ∧
    (incoming.full_content = none → r.full_content = e.full_content) ∧
    (∀ v, incoming.full_content = some v → r.full_content = some v) ∧
    (incoming.feed_url = none → r.feed_url = e.feed_url) ∧
    (∀ v, incoming.feed_url = some v → r.feed_url = some v) ∧
    (incoming.content_hash = none → r.content_hash = e.content_hash) ∧
    (∀ v, incoming.content_hash = some v → r.content_hash = some v) ∧
    (incoming.fetch_duration_ms = none → r.fetch_duration_ms = e.fetch_duration_ms) ∧
    (∀ v, incoming.fetch_duration_ms = some v → r.fetch_duration_ms = some v) := by
  refine ⟨rfl, rfl, rfl, ?_, ?_, ?_, ?_, ?_, ?_, ?_, ?_, ?_, ?_, ?_, ?_⟩ <;>
    first
      | (intro h; simp [UpsertArticle, coalesce, h])
      | (intro v h; simp [UpsertArticle, coalesce, h])

theorem upsertArticle_conflict_semantics_witness :
    (UpsertArticle
        (some { title := [], url := [], publish_date := some 7,
                summary := some [], full_content := none, fetch_time := 1,
                posted_to_discord := false, feed_url := none,
                content_hash := none, fetch_duration_ms := none })
        { title := [], url := [], publish_date := none,
          summary := none, full_content := some [], fetch_time := 2,
          posted_to_discord := true, feed_url := none,
          content_hash := none, fetch_duration_ms := none }).publish_date = some 7 ∧
    (UpsertArticle
        (some { title := [], url := [], publish_date := some 7,
                summary := some [], full_content := none, fetch_time := 1,
                posted_to_discord := false, feed_url := none,
                content_hash := none, fetch_duration_ms := none })
        { title := [], url := [], publish_date := none,
          summary := none, full_content := some [], fetch_time := 2,
          posted_to_discord := true, feed_url := none,
          content_hash := none, fetch_duration_ms := none }).fetch_time = 2 := by
  constructor
  · exact (upsertArticle_conflict_semantics _ _).2.2.2.1 rfl
  · exact (upsertArticle_conflict_semantics _ _).2.1

theorem enqueueSummarization_backpressure (cap : Nat) (defaultModel : List Char)
    (now : Nat) (queue : List SummarizationRequest) (request : SummarizationRequest) :
    (queue.length < cap →
      (EnqueueSummarization cap defaultModel now queue request).1 = EnqueueResult.ok ∧
      ∃ r, (EnqueueSummarization cap defaultModel now queue request).2 = queue ++ [r]) ∧
    (queue.length = cap →
      (EnqueueSummarization cap defaultModel now queue request).1 = EnqueueResult.queueFull cap ∧
      (EnqueueSummarization cap defaultModel now queue request).2 = queue) := by
  constructor
  · intro h
    refine ⟨?_, ?_⟩ <;> simp [EnqueueSummarization, h]
  · intro h
    have hn : ¬ queue.length < cap := by omega
    refine ⟨?_, ?_⟩ <;> simp [EnqueueSummarization, hn]

theorem enqueueSummarization_backpressure_witness :
    (EnqueueSummarization 1 [] 5 []
        { articleURL := [], articleTitle := [], content := [], model := [],
          priority := 1, enqueuedAt := 0 }).1 = EnqueueResult.ok ∧
    (EnqueueSummarization 1 [] 5
        [{ articleURL := [], articleTitle := [], content := [], model := [],
           priority := 1, enqueuedAt := 0 }]
        { articleURL := [], articleTitle := [], content := [], model := [],
          priority := 1, enqueuedAt := 0 }).2 =
      [{ articleURL := [], articleTitle := [], content := [], model := [],
         priority := 1, enqueuedAt := 0 }] := by
  constructor
  · exact ((enqueueSummarization_backpressure 1 [] 5 [] _).1 (by decide)).1
  · exact ((enqueueSummarization_backpressure 1 [] 5 _ _).2 (by decide)).2

theorem CircuitBreaker.execRepeat_succ_last (now : Nat) (fnOk : Bool) :
    ∀ (n : Nat) (cb : CircuitBreaker),
      CircuitBreaker.execRepeat cb now fnOk (n + 1) =
        ((CircuitBreaker.execRepeat cb now fnOk n).Execute now fnOk).breaker := by
  intro n
  induction n with
  | zero => intro cb; rfl
  | succ m ihm =>
    intro cb
    show CircuitBreaker.execRepeat (cb.Execute now fnOk).breaker now fnOk (m + 1) = _
    rw [ihm]
    rfl

theorem CircuitBreaker.execRepeat_fail_closed (cfg : CircuitBreakerConfig) (t : Nat) :
    ∀ k, k < cfg.failureThreshold →
      CircuitBreaker.execRepeat (CircuitBreaker.initial cfg) t false k =
        { config := cfg, state := CircuitBreakerState.closed,
          failureCount := k, successCount := 0,
          lastFailureTime := if k = 0 then none else some t,
          lastSuccessTime := none } := by
  intro k
  induction k with
  | zero =>
    intro _
    simp [CircuitBreaker.execRepeat, CircuitBreaker.initial]
  | succ n ih =>
    intro hk
    have hn : n < cfg.failureThreshold := Nat.lt_of_succ_lt hk
    rw [CircuitBreaker.execRepeat_succ_last, ih hn]
    have hlt : ¬ (n + 1 ≥ cfg.failureThreshold) := by omega
    rcases Nat.eq_zero_or_pos n with h0 | hpos
    · subst h0
      simp [CircuitBreaker.Execute, CircuitBreaker.canExecute,
        CircuitBreaker.recordFailure, hlt]
    · have hne : n ≠ 0 := by omega
      have hres : ¬ (t - t > cfg.resetTimeout) := by omega
      simp [CircuitBreaker.Execute, CircuitBreaker.canExecute,
        CircuitBreaker.recordFailure, hlt, hne, hres]

theorem CircuitBreaker.execRepeat_success_halfOpen (cfg : CircuitBreakerConfig)
    (f : Nat) (lf ls : Option Nat) (t : Nat) :
    ∀ k, k < cfg.successThreshold →
      CircuitBreaker.execRepeat
          { config := cfg, state := CircuitBreakerState.halfOpen,
            failureCount := f, successCount := 0,
            lastFailureTime := lf, lastSuccessTime := ls } t true k =
        { config := cfg, state := CircuitBreakerState.halfOpen,
          failureCount := f, successCount := k,
          lastFailureTime := lf,
          lastSuccessTime := if k = 0 then ls else some t } := by
  intro k
  induction k with
  | zero =>
    intro _
    simp [CircuitBreaker.execRepeat]
  | succ n ih =>
    intro hk
    have hn : n < cfg.successThreshold := Nat.lt_of_succ_lt hk
    rw [CircuitBreaker.execRepeat_succ_last, ih hn]
    have hlt : ¬ (n + 1 ≥ cfg.successThreshold) := by omega
    simp [CircuitBreaker.Execute, CircuitBreaker.canExecute,
      CircuitBreaker.recordSuccess, hlt]

theorem circuitBreaker_three_state_machine (cfg : CircuitBreakerConfig)
    (hf : 0 < cfg.failureThreshold) (hs : 0 < cfg.successThreshold) :
    (∀ t k, k < cfg.failureThreshold →
      (CircuitBreaker.execRepeat (CircuitBreaker.initial cfg) t false k).state =
        CircuitBreakerState.closed) ∧
    (∀ t, (CircuitBreaker.execRepeat (CircuitBreaker.initial cfg) t false
        cfg.failureThreshold).state = CircuitBreakerState.opened) ∧
    (∀ (cb : CircuitBreaker) (now : Nat) (b : Bool) (tf : Nat),
      cb.config = cfg → cb.state = CircuitBreakerState.opened →
      cb.lastFailureTime = some tf → now - tf < cfg.timeout →
      cb.Execute now b =
        { rejectedOpen := true, invoked := false, breaker := cb }) ∧
    (∀ (cb : CircuitBreaker) (now : Nat) (b : Bool) (tf : Nat),
      cb.config = cfg → cb.state = CircuitBreakerState.opened →
      cb.lastFailureTime = some tf → now - tf > cfg.timeout →
      cb.canExecute now =
        (true, { cb with state := CircuitBreakerState.halfOpen, successCount := 0 }) ∧
      (cb.Execute now b).invoked = true) ∧
    (∀ (cb : CircuitBreaker) (t k : Nat),
      cb.config = cfg → cb.state = CircuitBreakerState.halfOpen →
      cb.successCount = 0 → k < cfg.successThreshold →
      (CircuitBreaker.execRepeat cb t true k).state = CircuitBreakerState.halfOpen) ∧
    (∀ (cb : CircuitBreaker) (t : Nat),
      cb.config = cfg → cb.state = CircuitBreakerState.halfOpen →
      cb.successCount = 0 →
      (CircuitBreaker.execRepeat cb t true cfg.successThreshold).state =
          CircuitBreakerState.closed ∧
      (CircuitBreaker.execRepeat cb t true cfg.successThreshold).failureCount = 0 ∧
      (CircuitBreaker.execRepeat cb t true cfg.successThreshold).successCount = 0) ∧
    (∀ (cb : CircuitBreaker) (now : Nat),
      cb.state = CircuitBreakerState.halfOpen →
      (cb.Execute now false).breaker.state = CircuitBreakerState.opened ∧
      (cb.Execute now false).breaker.successCount = 0) := by
  refine ⟨?_, ?_, ?_, ?_, ?_, ?_, ?_⟩
  · intro t k hk
    rw [CircuitBreaker.execRepeat_fail_closed cfg t k hk]
  · intro t
    obtain ⟨m, hm⟩ : ∃ m, cfg.failureThreshold = m + 1 :=
      ⟨cfg.failureThreshold - 1, by omega⟩
    rw [hm, CircuitBreaker.execRepeat_succ_last,
      CircuitBreaker.execRepeat_fail_closed cfg t m (by omega)]
    rcases Nat.eq_zero_or_pos m with h0 | hpos
    · subst h0
      simp [CircuitBreaker.Execute, CircuitBreaker.canExecute,
        CircuitBreaker.recordFailure, hm]
    · have hne : m ≠ 0 := by omega
      have hres : ¬ (t - t > cfg.resetTimeout) := by omega
      simp [CircuitBreaker.Execute, CircuitBreaker.canExecute,
        CircuitBreaker.recordFailure, hne, hres, hm]
  · intro cb now b tf hcfg hst hlf hbefore
    have hno : ¬ (now - (cb.lastFailureTime.getD 0) > cb.config.timeout) := by
      rw [hlf, hcfg]; simp; omega
    simp [CircuitBreaker.Execute, CircuitBreaker.canExecute, hst, hno]
  · intro cb now b tf hcfg hst hlf hafter
    have hyes : now - (cb.lastFailureTime.getD 0) > cb.config.timeout := by
      rw [hlf, hcfg]; simpa using hafter
    constructor
    · simp [CircuitBreaker.canExecute, hst, hyes]
    · simp [CircuitBreaker.Execute, CircuitBreaker.canExecute, hst, hyes]
      rcases b with _ | _ <;> simp
  · intro cb t k hcfg hst hsc hk
    obtain ⟨cfg0, st, fc, sc, lf, ls⟩ := cb
    simp only at hcfg hst hsc
    subst cfg0; subst hst; subst hsc
    rw [CircuitBreaker.execRepeat_success_halfOpen cfg fc lf ls t k hk]
  · intro cb t hcfg hst hsc
    obtain ⟨cfg0, st, fc, sc, lf, ls⟩ := cb
    simp only at hcfg hst hsc
    subst cfg0; subst hst; subst hsc
    obtain ⟨m, hm⟩ : ∃ m, cfg.successThreshold = m + 1 :=
      ⟨cfg.successThreshold - 1, by omega⟩
    rw [hm, CircuitBreaker.execRepeat_succ_last,
      CircuitBreaker.execRepeat_success_halfOpen cfg fc lf ls t m (by omega)]
    simp [CircuitBreaker.Execute, CircuitBreaker.canExecute,
      CircuitBreaker.recordSuccess, hm]
  · intro cb now hst
    simp [CircuitBreaker.Execute, CircuitBreaker.canExecute, hst,
      CircuitBreaker.recordFailure]

theorem circuitBreaker_three_state_machine_witness :
    (CircuitBreaker.execRepeat (CircuitBreaker.initial cbWitnessConfig) 5 false 2).state =
        CircuitBreakerState.opened ∧
    cbWitnessOpen.Execute 7 true =
      { rejectedOpen := true, invoked := false, breaker := cbWitnessOpen } ∧
    (cbWitnessOpen.canExecute 16).1 = true ∧
    (CircuitBreaker.execRepeat cbWitnessHalfOpen 20 true 2).state =
      CircuitBreakerState.closed ∧
    (cbWitnessHalfOpen.Execute 20 false).breaker.state = CircuitBreakerState.opened := by
  have h := circuitBreaker_three_state_machine cbWitnessConfig (by decide) (by decide)
  refine ⟨h.2.1 5, h.2.2.1 cbWitnessOpen 7 true 5 rfl rfl rfl (by decide), ?_, ?_, ?_⟩
  · rw [(h.2.2.2.1 cbWitnessOpen 16 true 5 rfl rfl rfl (by decide)).1]
  · exact (h.2.2.2.2.2.1 cbWitnessHalfOpen 20 rfl rfl rfl).1
  · exact (h.2.2.2.2.2.2 cbWitnessHalfOpen 20 rfl).1

theorem lastIndexChar_lt_length (c : Char) :
    ∀ (l : List Char) (j : Nat), lastIndexChar c l = some j → j < l.length := by
  intro l
  induction l with
  | nil => intro j h; simp [lastIndexChar] at h
  | cons x xs ih =>
    intro j h
    simp only [lastIndexChar] at h
    rcases hx : lastIndexChar c xs with _ | j0
    · rw [hx] at h
      by_cases hc : x = c
      · simp [hc] at h
        simp [List.length_cons]
        omega
      · simp [hc] at h
    · rw [hx] at h
      simp at h
      have := ih j0 hx
      simp [List.length_cons]
      omega

theorem truncateString_safe :
    (∀ (s : List Char) (maxLength : Int), 3 ≤ maxLength →
      ∃ r, truncateString s maxLength = some r ∧
        (r.length : Int) ≤ maxLength ∧
        (r = s ↔ (s.length : Int) ≤ maxLength) ∧
        ((s.length : Int) > maxLength → ∃ p, r = p ++ ellipsisDots)) ∧
    (∀ (s : List Char) (maxLength : Int), maxLength < 3 →
      (s.length : Int) > maxLength → truncateString s maxLength = none) := by
  constructor
  · intro s m hm
    by_cases h1 : (s.length : Int) ≤ m
    · refine ⟨s, ?_, h1, ?_, ?_⟩
      · simp [truncateString, h1]
      · simp [h1]
      · intro hgt; omega
    · have hlen : (s.length : Int) > m := by omega
      have htake : (s.take (m - 3).toNat).length = (m - 3).toNat := by
        rw [List.length_take]
        omega
      by_cases h2 : m > 3
      · rcases hL : lastIndexChar ' ' (s.take (m - 3).toNat) with _ | j0
        · -- no space found: LastIndex is -1, hard cut
          have hcond : ¬ (LastIndex (s.take (m - 3).toNat) ' ' > m / 2) := by
            simp only [LastIndex, hL]
            omega
          refine ⟨s.take (m - 3).toNat ++ ellipsisDots, ?_, ?_, ?_, ?_⟩
          · simp only [truncateString, if_neg h1, if_pos h2]
            rw [if_neg hcond]
          · simp only [List.length_append, htake, ellipsisDots]
            simp
            omega
          · have hne : s.take (m - 3).toNat ++ ellipsisDots ≠ s := by
              intro he
              have := congrArg List.length he
              simp only [List.length_append, htake, ellipsisDots] at this
              simp at this
              omega
            exact iff_of_false hne h1
          · intro _; exact ⟨_, rfl⟩
        · -- a space was found at index j0
          have hj0 : j0 < (s.take (m - 3).toNat).length :=
            lastIndexChar_lt_length ' ' _ j0 hL
          by_cases hcond : LastIndex (s.take (m - 3).toNat) ' ' > m / 2
          · have hLv : LastIndex (s.take (m - 3).toNat) ' ' = (j0 : Int) := by
              rw [LastIndex, hL]
            have hjlen : ((s.take (m - 3).toNat).take (j0 : Int).toNat).length = j0 := by
              rw [List.length_take]
              simp
              omega
            refine ⟨(s.take (m - 3).toNat).take (j0 : Int).toNat ++ ellipsisDots,
              ?_, ?_, ?_, ?_⟩
            · simp only [truncateString, if_neg h1, if_pos h2]
              rw [if_pos hcond, hLv]
            · simp only [List.length_append, hjlen, ellipsisDots]
              simp
              rw [htake] at hj0
              omega
            · have hne : (s.take (m - 3).toNat).take (j0 : Int).toNat ++ ellipsisDots ≠ s := by
                intro he
                have := congrArg List.length he
                simp only [List.length_append, hjlen, ellipsisDots] at this
                simp at this
                rw [htake] at hj0
                omega
              exact iff_of_false hne h1
            · intro _; exact ⟨_, rfl⟩
          · refine ⟨s.take (m - 3).toNat ++ ellipsisDots, ?_, ?_, ?_, ?_⟩
            · simp only [truncateString, if_neg h1, if_pos h2]
              rw [if_neg hcond]
            · simp only [List.length_append, htake, ellipsisDots]
              simp
              omega
            · have hne : s.take (m - 3).toNat ++ ellipsisDots ≠ s := by
                intro he
                have := congrArg List.length he
                simp only [List.length_append, htake, ellipsisDots] at this
                simp at this
                omega
              exact iff_of_false hne h1
            · intro _; exact ⟨_, rfl⟩
      · -- maxLength = 3 exactly
        have h3 : (0 : Int) ≤ m - 3 := by omega
        refine ⟨s.take (m - 3).toNat ++ ellipsisDots, ?_, ?_, ?_, ?_⟩
        · simp only [truncateString, if_neg h1, if_neg h2]
          rw [if_pos h3]
        · simp only [List.length_append, htake, ellipsisDots]
          simp
          omega
        · have hne : s.take (m - 3).toNat ++ ellipsisDots ≠ s := by
            intro he
            have := congrArg List.length he
            simp only [List.length_append, htake, ellipsisDots] at this
            simp at this
            omega
          exact iff_of_false hne h1
        · intro _; exact ⟨_, rfl⟩
  · intro s m hm hlen
    have h1 : ¬ ((s.length : Int) ≤ m) := by omega
    have h2 : ¬ (m > 3) := by omega
    have h3 : ¬ ((0 : Int) ≤ m - 3) := by omega
    simp only [truncateString, if_neg h1, if_neg h2]
    rw [if_neg h3]

theorem truncateString_safe_witness :
    (∃ r, truncateString ['a', 'b', 'c', 'd', 'e'] 4 = some r ∧
      (r.length : Int) ≤ 4 ∧
      (r = ['a', 'b', 'c', 'd', 'e'] ↔ ((['a', 'b', 'c', 'd', 'e'] : List Char).length : Int) ≤ 4) ∧
      (((['a', 'b', 'c', 'd', 'e'] : List Char).length : Int) > 4 → ∃ p, r = p ++ ellipsisDots)) ∧
    truncateString ['a', 'b', 'c', 'd', 'e'] 2 = none := by
  constructor
  · exact truncateString_safe.1 ['a', 'b', 'c', 'd', 'e'] 4 (by decide)
  · exact truncateString_safe.2 ['a', 'b', 'c', 'd', 'e'] 2 (by decide) (by decide)

theorem splitSlash_ne_nil (s : List Char) : splitSlash s ≠ [] := by
  cases s with
  | nil => simp [splitSlash]
  | cons c rest =>
    simp only [splitSlash]
    by_cases hc : c = '/'
    · simp [hc]
    · rw [if_neg hc]
      rcases h : splitSlash rest with _ | ⟨p, ps⟩ <;> simp

theorem joinSlash_splitSlash (s : List Char) : joinSlash (splitSlash s) = s := by
  induction s with
  | nil => rfl
  | cons c rest ih =>
    simp only [splitSlash]
    by_cases hc : c = '/'
    · rw [if_pos hc]
      rcases h : splitSlash rest with _ | ⟨p, ps⟩
      · exact absurd h (splitSlash_ne_nil rest)
      · rw [h] at ih
        subst hc
        rcases ps with _ | ⟨q, qs⟩
        · show '/' :: joinSlash [p] = '/' :: rest
          rw [show joinSlash [p] = p from rfl]
          simpa using ih
        · show [] ++ '/' :: joinSlash (p :: q :: qs) = '/' :: rest
          simpa using ih
    · rw [if_neg hc]
      rcases h : splitSlash rest with _ | ⟨p, ps⟩
      · exact absurd h (splitSlash_ne_nil rest)
      · rw [h] at ih
        rcases ps with _ | ⟨q, qs⟩
        · show c :: p = c :: rest
          simpa using ih
        · show (c :: p) ++ '/' :: joinSlash (q :: qs) = c :: rest
          simp only [List.cons_append]
          exact congrArg (List.cons c) ih

theorem sendAttemptLoop_logs_sanitized (webhookURL : List Char) (jsonLen : Nat)
    (net : Nat → NetOutcome) :
    ∀ (r attempt : Nat) (row : DiscordErrorLogRow),
      row ∈ (sendAttemptLoop webhookURL jsonLen net attempt r).logs →
      row.webhookURL = sanitizeWebhookURL webhookURL := by
  intro r
  induction r with
  | zero => intro attempt row h; simp [sendAttemptLoop] at h
  | succ n ih =>
    intro attempt row h
    simp only [sendAttemptLoop] at h
    rcases hsend : sendWebhookMessage jsonLen (net attempt) with ⟨e, nc⟩
    rw [hsend] at h
    rcases e with _ | e
    · simp at h
    · simp at h
      rcases h with h | h
      · rw [h]
      · exact ih (attempt + 1) row h

theorem sendAttemptLoop_tooLarge (webhookURL : List Char) (jsonLen : Nat)
    (net : Nat → NetOutcome) (h : jsonLen > 2000) :
    ∀ (r attempt : Nat),
      (sendAttemptLoop webhookURL jsonLen net attempt (r + 1)).success = false ∧
      (sendAttemptLoop webhookURL jsonLen net attempt (r + 1)).attemptsMade = r + 1 ∧
      (sendAttemptLoop webhookURL jsonLen net attempt (r + 1)).networkCalls = 0 ∧
      (sendAttemptLoop webhookURL jsonLen net attempt (r + 1)).lastError =
        some (WebhookSendError.messageTooLarge jsonLen) ∧
      ∀ row ∈ (sendAttemptLoop webhookURL jsonLen net attempt (r + 1)).logs,
        row.statusCode = 0 := by
  intro r
  induction r with
  | zero =>
    intro attempt
    simp [sendAttemptLoop, sendWebhookMessage, h, extractStatusCode]
  | succ n ih =>
    intro attempt
    have hstep : sendAttemptLoop webhookURL jsonLen net attempt (n + 1 + 1) =
        { success := (sendAttemptLoop webhookURL jsonLen net (attempt + 1) (n + 1)).success,
          attemptsMade :=
            (sendAttemptLoop webhookURL jsonLen net (attempt + 1) (n + 1)).attemptsMade + 1,
          networkCalls :=
            (sendAttemptLoop webhookURL jsonLen net (attempt + 1) (n + 1)).networkCalls + 0,
          logs := { webhookURL := sanitizeWebhookURL webhookURL,
                    retryAttempt := attempt,
                    statusCode :=
                      extractStatusCode (WebhookSendError.messageTooLarge jsonLen) } ::
            (sendAttemptLoop webhookURL jsonLen net (attempt + 1) (n + 1)).logs,
          lastError :=
            (sendAttemptLoop webhookURL jsonLen net (attempt + 1) (n + 1)).lastError } := by
      simp [sendAttemptLoop, sendWebhookMessage, h]
    obtain ⟨ih1, ih2, ih3, ih4, ih5⟩ := ih (attempt + 1)
    rw [hstep]
    refine ⟨ih1, by rw [ih2], by rw [ih3], ih4, ?_⟩
    intro row hrow
    simp at hrow
    rcases hrow with hrow | hrow
    · rw [hrow]; rfl
    · exact ih5 row hrow

theorem sendArticle_oversized_consumes_retries :
    oversizedSendOutcome.networkCalls = 0 ∧
    oversizedSendOutcome.attemptsMade = 3 ∧
    ¬ oversizedSendOutcome.attemptsMade = 1 := by
  refine ⟨rfl, rfl, by decide⟩

theorem sendArticle_oversized_rejected (webhookURL : List Char)
    (jsonLen maxRetries : Nat) (net : Nat → NetOutcome) (h : jsonLen > 2000) :
    (SendArticleToDiscord webhookURL jsonLen maxRetries net).success = false ∧
    (SendArticleToDiscord webhookURL jsonLen maxRetries net).networkCalls = 0 ∧
    (SendArticleToDiscord webhookURL jsonLen maxRetries net).attemptsMade = maxRetries + 1 ∧
    (SendArticleToDiscord webhookURL jsonLen maxRetries net).lastError =
      some (WebhookSendError.messageTooLarge jsonLen) := by
  obtain ⟨h1, h2, h3, h4, _⟩ :=
    sendAttemptLoop_tooLarge webhookURL jsonLen net h maxRetries 1
  exact ⟨h1, h3, h2, h4⟩

theorem sendArticle_oversized_rejected_witness :
    oversizedSendOutcome.success = false ∧
    oversizedSendOutcome.networkCalls = 0 ∧
    oversizedSendOutcome.attemptsMade = 2 + 1 ∧
    oversizedSendOutcome.lastError = some (WebhookSendError.messageTooLarge 2001) :=
  sendArticle_oversized_rejected [] 2001 2 (fun _ => NetOutcome.transportError) (by decide)

theorem sanitizeWebhookURL_short_url_unchanged (webhookURL : List Char) :
    ((splitSlash webhookURL).length < 7 →
      sanitizeWebhookURL webhookURL = webhookURL) ∧
    ((splitSlash webhookURL).length ≥ 7 →
      sanitizeWebhookURL webhookURL =
        joinSlash ((splitSlash webhookURL).dropLast ++ [tokenHidden])) ∧
    (∀ (jsonLen maxRetries : Nat) (net : Nat → NetOutcome),
      ∀ row ∈ (SendArticleToDiscord webhookURL jsonLen maxRetries net).logs,
        row.webhookURL = sanitizeWebhookURL webhookURL) := by
  refine ⟨?_, ?_, ?_⟩
  · intro hlt
    have hn : ¬ ((splitSlash webhookURL).length ≥ 7) := by omega
    simp only [sanitizeWebhookURL, if_neg hn]
    exact joinSlash_splitSlash webhookURL
  · intro hge
    simp only [sanitizeWebhookURL, if_pos hge]
  · intro jsonLen maxRetries net row hrow
    exact sendAttemptLoop_logs_sanitized webhookURL jsonLen net
      (maxRetries + 1) 1 row hrow

theorem sanitizeWebhookURL_short_url_unchanged_witness :
    sanitizeWebhookURL "a/b/c".toList = "a/b/c".toList ∧
    sanitizeWebhookURL "https://discord.com/api/webhooks/123/secret".toList =
      "https://discord.com/api/webhooks/123/***TOKEN_HIDDEN***".toList := by
  constructor
  · exact (sanitizeWebhookURL_short_url_unchanged "a/b/c".toList).1 (by decide)
  · rw [(sanitizeWebhookURL_short_url_unchanged
      "https://discord.com/api/webhooks/123/secret".toList).2.1 (by decide)]
    decide

theorem summary_word_limit_enforcement (summary : List Char) (maxWords : Nat) :
    ((Fields summary).length > maxWords + 20 →
      enforceSummaryWordLimit summary maxWords =
        joinSpace ((Fields summary).take maxWords) ++ ellipsisDots ∧
      ((Fields summary).take maxWords).length = maxWords) ∧
    ((Fields summary).length ≤ maxWords + 20 →
      enforceSummaryWordLimit summary maxWords = summary) := by
  constructor
  · intro h
    constructor
    · simp only [enforceSummaryWordLimit, if_pos h]
    · rw [List.length_take]
      omega
  · intro h
    have hn : ¬ ((Fields summary).length > maxWords + 20) := by omega
    simp only [enforceSummaryWordLimit, if_neg hn]

theorem summary_word_limit_enforcement_witness :
    enforceSummaryWordLimit
        "a b c d e f g h i j k l m n o p q r s t u v w x y".toList 4 =
      "a b c d...".toList ∧
    enforceSummaryWordLimit "a b c".toList 4 = "a b c".toList := by
  constructor
  · rw [(summary_word_limit_enforcement
      "a b c d e f g h i j k l m n o p q r s t u v w x y".toList 4).1 (by decide) |>.1]
    decide
  · exact (summary_word_limit_enforcement "a b c".toList 4).2 (by decide)

theorem summarizeArticleAttempts_le (apiOk : Nat → Bool) :
    ∀ (r start : Nat), (SummarizeArticleAttempts apiOk start r).2 ≤ r := by
  intro r
  induction r with
  | zero => intro start; simp [SummarizeArticleAttempts]
  | succ n ih =>
    intro start
    simp only [SummarizeArticleAttempts]
    by_cases h : apiOk start
    · simp [h]
    · simp [h]
      exact ih (start + 1)

theorem summarizeArticleAttempts_allFail (apiOk : Nat → Bool)
    (hfail : ∀ i, apiOk i = false) :
    ∀ (r start : Nat), SummarizeArticleAttempts apiOk start r = (false, r) := by
  intro r
  induction r with
  | zero => intro start; simp [SummarizeArticleAttempts]
  | succ n ih =>
    intro start
    simp only [SummarizeArticleAttempts, hfail start]
    simp [ih (start + 1)]

theorem scheduler_retry_nesting_counterexample :
    (SummarizeArticleAttempts (fun _ => false) 0 3).2 = 3 ∧
    ¬ ((SummarizeArticleAttempts (fun _ => false) 0 3).2 = 1) ∧
    (processRequestCalls (fun _ => false) 3 3).2 = 9 ∧
    ¬ ((processRequestCalls (fun _ => false) 3 3).2 ≤ 3) := by
  refine ⟨rfl, by decide, rfl, by decide⟩

theorem scheduler_retry_nesting (apiOk : Nat → Bool) (R r : Nat) (hr : 1 ≤ r) :
    (∀ start, 1 ≤ (SummarizeArticleAttempts apiOk start r).2 ∧
      (SummarizeArticleAttempts apiOk start r).2 ≤ r) ∧
    (processRequestCalls apiOk R r).2 ≤ R * r ∧
    ((∀ i, apiOk i = false) → (processRequestCalls apiOk R r).2 = R * r) := by
  refine ⟨?_, ?_, ?_⟩
  · intro start
    constructor
    · obtain ⟨m, hm⟩ : ∃ m, r = m + 1 := ⟨r - 1, by omega⟩
      subst hm
      simp only [SummarizeArticleAttempts]
      by_cases h : apiOk start <;> simp [h]
    · exact summarizeArticleAttempts_le apiOk r start
  · have htot : ∀ (n start : Nat),
        (processRequestAttempts apiOk r start n).2 ≤ n * r := by
      intro n
      induction n with
      | zero => intro start; simp [processRequestAttempts]
      | succ m ih =>
        intro start
        simp only [processRequestAttempts]
        by_cases h : (SummarizeArticleAttempts apiOk start r).1
        · simp [h]
          calc (SummarizeArticleAttempts apiOk start r).2 ≤ r :=
                summarizeArticleAttempts_le apiOk r start
            _ ≤ (m + 1) * r := by nlinarith
        · simp [h]
          have h1 := summarizeArticleAttempts_le apiOk r start
          have h2 := ih (start + (SummarizeArticleAttempts apiOk start r).2)
          calc (SummarizeArticleAttempts apiOk start r).2 +
                (processRequestAttempts apiOk r
                  (start + (SummarizeArticleAttempts apiOk start r).2) m).2
              ≤ r + m * r := by omega
            _ = (m + 1) * r := by ring
    exact htot R 0
  · intro hfail
    have htot : ∀ (n start : Nat),
        processRequestAttempts apiOk r start n = (false, n * r) := by
      intro n
      induction n with
      | zero => intro start; simp [processRequestAttempts]
      | succ m ih =>
        intro start
        simp only [processRequestAttempts,
          summarizeArticleAttempts_allFail apiOk hfail r start]
        simp [ih (start + r)]
        ring
    have := htot R 0
    simp [processRequestCalls, this]

theorem scheduler_retry_nesting_witness :
    (processRequestCalls (fun _ => false) 2 3).2 ≤ 2 * 3 ∧
    (processRequestCalls (fun _ => false) 2 3).2 = 2 * 3 := by
  have h := scheduler_retry_nesting (fun _ => false) 2 3 (by decide)
  exact ⟨h.2.1, h.2.2 (fun _ => rfl)⟩

theorem evaluateRule_state_machine (rule : AlertRule) (value : Rat)
    (now : Nat) :
    (shouldAlert rule value = true →
      evaluateRuleStep rule value none now =
        (some { name := rule.name, status := "firing".toList,
                severity := rule.severity, description := rule.description,
                value := value, threshold := rule.threshold,
                labels := rule.labels, startsAt := now, endsAt := none },
         [{ name := rule.name, status := "firing".toList,
            severity := rule.severity, description := rule.description,
            value := value, threshold := rule.threshold,
            labels := rule.labels, startsAt := now, endsAt := none }])) ∧
    (∀ a : Alert, shouldAlert rule value = true →
      evaluateRuleStep rule value (some a) now = (some a, [])) ∧
    (∀ a : Alert, shouldAlert rule value = false →
      evaluateRuleStep rule value (some a) now =
        (none, [{ a with status := "resolved".toList, endsAt := some now }])) ∧
    (shouldAlert rule value = false →
      evaluateRuleStep rule value none now = (none, [])) := by
  refine ⟨?_, ?_, ?_, ?_⟩
  · intro h
    simp [evaluateRuleStep, h]
  · intro a h
    simp [evaluateRuleStep, h]
  · intro a h
    simp [evaluateRuleStep, h]
  · intro h
    simp [evaluateRuleStep, h]

theorem evaluateRule_state_machine_witness :
    evaluateRuleStep alertRuleWitness 7 none 3 =
      (some alertWitnessFiring, [alertWitnessFiring]) ∧
    evaluateRuleStep alertRuleWitness 7 (some alertWitnessFiring) 4 =
      (some alertWitnessFiring, []) ∧
    evaluateRuleStep alertRuleWitness 4 (some alertWitnessFiring) 9 =
      (none, [{ alertWitnessFiring with
                status := "resolved".toList, endsAt := some 9 }]) ∧
    evaluateRuleStep alertRuleWitness 4 none 9 = (none, []) := by
  have h := evaluateRule_state_machine alertRuleWitness 7 3
  have h4 := evaluateRule_state_machine alertRuleWitness 4 9
  have h7 := evaluateRule_state_machine alertRuleWitness 7 4
  refine ⟨h.1 (by decide), h7.2.1 alertWitnessFiring (by decide),
    h4.2.2.1 alertWitnessFiring (by decide), h4.2.2.2 (by decide)⟩

theorem dropCaseInsensitive_length :
    ∀ (tag s r : List Char), dropCaseInsensitive tag s = some r →
      r.length ≤ s.length := by
  intro tag
  induction tag with
  | nil =>
    intro s r h
    simp [dropCaseInsensitive] at h
    simp [h]
  | cons t ts ih =>
    intro s r h
    cases s with
    | nil => simp [dropCaseInsensitive] at h
    | cons c cs =>
      simp only [dropCaseInsensitive] at h
      by_cases hc : c.toLower = t.toLower
      · rw [if_pos hc] at h
        have := ih cs r h
        simp [List.length_cons]
        omega
      · rw [if_neg hc] at h
        exact absurd h (by simp)

theorem dropRegexSpaces_length :
    ∀ s : List Char, (dropRegexSpaces s).length ≤ s.length := by
  intro s
  induction s with
  | nil => simp [dropRegexSpaces]
  | cons c cs ih =>
    simp only [dropRegexSpaces]
    by_cases hc : isRegexSpace c
    · rw [if_pos hc]
      simp [List.length_cons]
      omega
    · rw [if_neg hc]

theorem expectGt_length :
    ∀ (s r : List Char), expectGt s = some r → r.length < s.length := by
  intro s r h
  cases s with
  | nil => simp [expectGt] at h
  | cons c cs =>
    simp only [expectGt] at h
    by_cases hc : c = '>'
    · rw [if_pos hc] at h
      simp at h
      simp [← h, List.length_cons]
    · rw [if_neg hc] at h
      exact absurd h (by simp)

theorem matchOpenTag_length (tag : List Char) :
    ∀ (s r : List Char), matchOpenTag tag s = some r → r.length < s.length := by
  intro s r h
  cases s with
  | nil => simp [matchOpenTag] at h
  | cons c cs =>
    simp only [matchOpenTag] at h
    by_cases hc : c = '<'
    · rw [if_pos hc, Option.bind_eq_some] at h
      obtain ⟨s2, hd, h⟩ := h
      have h1 := dropCaseInsensitive_length tag cs s2 hd
      have h2 := dropRegexSpaces_length s2
      have h3 := expectGt_length (dropRegexSpaces s2) r h
      simp only [List.length_cons]
      omega
    · rw [if_neg hc] at h
      exact absurd h (by simp)

theorem matchCloseTag_length (tag : List Char) :
    ∀ (s r : List Char), matchCloseTag tag s = some r → r.length < s.length := by
  intro s r h
  cases s with
  | nil => simp [matchCloseTag] at h
  | cons a s1 =>
    cases s1 with
    | nil => simp [matchCloseTag] at h
    | cons b cs =>
      simp only [matchCloseTag] at h
      by_cases hab : a = '<' && b = '/'
      · rw [if_pos hab, Option.bind_eq_some] at h
        obtain ⟨s2, hd, h⟩ := h
        have h1 := dropCaseInsensitive_length tag cs s2 hd
        have h2 := dropRegexSpaces_length s2
        have h3 := expectGt_length (dropRegexSpaces s2) r h
        simp only [List.length_cons]
        omega
      · rw [if_neg hab] at h
        exact absurd h (by simp)

theorem matchStrayTagRest_length (tag : List Char) :
    ∀ (s r : List Char), matchStrayTagRest tag s = some r → r.length ≤ s.length := by
  intro s r h
  cases s with
  | nil => simp [matchStrayTagRest] at h
  | cons b rest =>
    simp only [matchStrayTagRest] at h
    by_cases hb : b = '/'
    · rw [if_pos hb, Option.bind_eq_some] at h
      obtain ⟨s2, hd, h⟩ := h
      have h1 := dropCaseInsensitive_length tag rest s2 hd
      have h2 := dropRegexSpaces_length s2
      have h3 := expectGt_length (dropRegexSpaces s2) r h
      simp only [List.length_cons]
      omega
    · rw [if_neg hb, Option.bind_eq_some] at h
      obtain ⟨s2, hd, h⟩ := h
      have h1 := dropCaseInsensitive_length tag (b :: rest) s2 hd
      have h2 := dropRegexSpaces_length s2
      have h3 := expectGt_length (dropRegexSpaces s2) r h
      simp only [List.length_cons] at h1 ⊢
      omega

theorem matchStrayTag_length (tag : List Char) :
    ∀ (s r : List Char), matchStrayTag tag s = some r → r.length < s.length := by
  intro s r h
  cases s with
  | nil => simp [matchStrayTag] at h
  | cons c cs =>
    simp only [matchStrayTag] at h
    by_cases hc : c = '<'
    · rw [if_pos hc] at h
      have := matchStrayTagRest_length tag cs r h
      simp only [List.length_cons]
      omega
    · rw [if_neg hc] at h
      exact absurd h (by simp)

theorem findCloseTag_length (tag : List Char) :
    ∀ (s r : List Char), findCloseTag tag s = some r → r.length < s.length := by
  intro s
  induction s with
  | nil => intro r h; simp [findCloseTag] at h
  | cons c cs ih =>
    intro r h
    simp only [findCloseTag] at h
    rcases hm : matchCloseTag tag (c :: cs) with _ | r0
    · rw [hm] at h
      have := ih r h
      simp [List.length_cons]
      omega
    · rw [hm] at h
      simp at h
      subst h
      exact matchCloseTag_length tag (c :: cs) r0 hm

theorem matchPairedTag_length (tag : List Char) :
    ∀ (s r : List Char), matchPairedTag tag s = some r → r.length < s.length := by
  intro s r h
  rw [matchPairedTag, Option.bind_eq_some] at h
  obtain ⟨r1, ho, h⟩ := h
  have h1 := matchOpenTag_length tag s r1 ho
  have h2 := findCloseTag_length tag r1 r h
  omega

theorem stripPairedFuel_congr (tag : List Char) :
    ∀ (f1 f2 : Nat) (s : List Char), s.length ≤ f1 → s.length ≤ f2 →
      stripPairedFuel tag f1 s = stripPairedFuel tag f2 s := by
  intro f1
  induction f1 with
  | zero =>
    intro f2 s h1 _
    have hs : s = [] := List.eq_nil_of_length_eq_zero (Nat.le_zero.mp h1)
    subst hs
    cases f2 <;> simp [stripPairedFuel]
  | succ g ih =>
    intro f2 s h1 h2
    cases s with
    | nil => cases f2 <;> simp [stripPairedFuel]
    | cons c cs =>
      cases f2 with
      | zero => simp at h2
      | succ g2 =>
        simp only [stripPairedFuel]
        rcases hm : matchPairedTag tag (c :: cs) with _ | rem
        · have hcs : cs.length ≤ g := by
            simp [List.length_cons] at h1; omega
          have hcs2 : cs.length ≤ g2 := by
            simp [List.length_cons] at h2; omega
          rw [ih g2 cs hcs hcs2]
        · have hr := matchPairedTag_length tag (c :: cs) rem hm
          simp only [List.length_cons] at hr h1 h2
          exact ih g2 rem (by omega) (by omega)

theorem stripStrayFuel_congr (tag : List Char) :
    ∀ (f1 f2 : Nat) (s : List Char), s.length ≤ f1 → s.length ≤ f2 →
      stripStrayFuel tag f1 s = stripStrayFuel tag f2 s := by
  intro f1
  induction f1 with
  | zero =>
    intro f2 s h1 _
    have hs : s = [] := List.eq_nil_of_length_eq_zero (Nat.le_zero.mp h1)
    subst hs
    cases f2 <;> simp [stripStrayFuel]
  | succ g ih =>
    intro f2 s h1 h2
    cases s with
    | nil => cases f2 <;> simp [stripStrayFuel]
    | cons c cs =>
      cases f2 with
      | zero => simp at h2
      | succ g2 =>
        simp only [stripStrayFuel]
        rcases hm : matchStrayTag tag (c :: cs) with _ | rem
        · have hcs : cs.length ≤ g := by
            simp [List.length_cons] at h1; omega
          have hcs2 : cs.length ≤ g2 := by
            simp [List.length_cons] at h2; omega
          rw [ih g2 cs hcs hcs2]
        · have hr := matchStrayTag_length tag (c :: cs) rem hm
          simp only [List.length_cons] at hr h1 h2
          exact ih g2 rem (by omega) (by omega)

theorem stripPaired_cons (tag : List Char) (c : Char) (cs : List Char) :
    stripPaired tag (c :: cs) =
      match matchPairedTag tag (c :: cs) with
      | some rem => stripPaired tag rem
      | none => c :: stripPaired tag cs := by
  show stripPairedFuel tag (c :: cs).length (c :: cs) = _
  rcases hm : matchPairedTag tag (c :: cs) with _ | rem
  · simp only [List.length_cons, stripPairedFuel, hm]
    rfl
  · simp only [List.length_cons, stripPairedFuel, hm]
    have hr := matchPairedTag_length tag (c :: cs) rem hm
    simp only [List.length_cons] at hr
    exact stripPairedFuel_congr tag cs.length rem.length rem (by omega) (le_refl _)

theorem stripStray_cons (tag : List Char) (c : Char) (cs : List Char) :
    stripStray tag (c :: cs) =
      match matchStrayTag tag (c :: cs) with
      | some rem => stripStray tag rem
      | none => c :: stripStray tag cs := by
  show stripStrayFuel tag (c :: cs).length (c :: cs) = _
  rcases hm : matchStrayTag tag (c :: cs) with _ | rem
  · simp only [List.length_cons, stripStrayFuel, hm]
    rfl
  · simp only [List.length_cons, stripStrayFuel, hm]
    have hr := matchStrayTag_length tag (c :: cs) rem hm
    simp only [List.length_cons] at hr
    exact stripStrayFuel_congr tag cs.length rem.length rem (by omega) (le_refl _)

theorem matchOpenTag_not_langle (tag : List Char) (c : Char) (cs : List Char)
    (hc : c ≠ '<') : matchOpenTag tag (c :: cs) = none := by
  simp [matchOpenTag, hc]

theorem matchStrayTag_not_langle (tag : List Char) (c : Char) (cs : List Char)
    (hc : c ≠ '<') : matchStrayTag tag (c :: cs) = none := by
  simp [matchStrayTag, hc]

theorem matchCloseTag_not_langle (tag : List Char) (c : Char) (cs : List Char)
    (hc : c ≠ '<') : matchCloseTag tag (c :: cs) = none := by
  cases cs with
  | nil => rfl
  | cons b rest => simp [matchCloseTag, hc]

theorem matchPairedTag_not_langle (tag : List Char) (c : Char) (cs : List Char)
    (hc : c ≠ '<') : matchPairedTag tag (c :: cs) = none := by
  simp [matchPairedTag, matchOpenTag_not_langle tag c cs hc]

theorem stripPaired_no_langle (tag : List Char) :
    ∀ s : List Char, '<' ∉ s → stripPaired tag s = s := by
  intro s
  induction s with
  | nil => intro _; rfl
  | cons c cs ih =>
    intro h
    have hc : c ≠ '<' := by
      intro hcc; exact h (by simp [hcc])
    have hcs : '<' ∉ cs := by
      intro hin; exact h (by simp [hin])
    rw [stripPaired_cons, matchPairedTag_not_langle tag c cs hc, ih hcs]

theorem stripStray_no_langle (tag : List Char) :
    ∀ s : List Char, '<' ∉ s → stripStray tag s = s := by
  intro s
  induction s with
  | nil => intro _; rfl
  | cons c cs ih =>
    intro h
    have hc : c ≠ '<' := by
      intro hcc; exact h (by simp [hcc])
    have hcs : '<' ∉ cs := by
      intro hin; exact h (by simp [hin])
    rw [stripStray_cons, matchStrayTag_not_langle tag c cs hc, ih hcs]

theorem stripPaired_append_no_langle (tag : List Char) :
    ∀ (a s : List Char), '<' ∉ a →
      stripPaired tag (a ++ s) = a ++ stripPaired tag s := by
  intro a
  induction a with
  | nil => intro s _; rfl
  | cons c a2 ih =>
    intro s h
    have hc : c ≠ '<' := by
      intro hcc; exact h (by simp [hcc])
    have ha2 : '<' ∉ a2 := by
      intro hin; exact h (by simp [hin])
    rw [List.cons_append, stripPaired_cons,
      matchPairedTag_not_langle tag c (a2 ++ s) hc, ih s ha2]
    rfl

theorem stripStray_append_no_langle (tag : List Char) :
    ∀ (a s : List Char), '<' ∉ a →
      stripStray tag (a ++ s) = a ++ stripStray tag s := by
  intro a
  induction a with
  | nil => intro s _; rfl
  | cons c a2 ih =>
    intro s h
    have hc : c ≠ '<' := by
      intro hcc; exact h (by simp [hcc])
    have ha2 : '<' ∉ a2 := by
      intro hin; exact h (by simp [hin])
    rw [List.cons_append, stripStray_cons,
      matchStrayTag_not_langle tag c (a2 ++ s) hc, ih s ha2]
    rfl

theorem findCloseTag_no_langle (tag : List Char) :
    ∀ s : List Char, '<' ∉ s → findCloseTag tag s = none := by
  intro s
  induction s with
  | nil => intro _; rfl
  | cons c cs ih =>
    intro h
    have hc : c ≠ '<' := by
      intro hcc; exact h (by simp [hcc])
    have hcs : '<' ∉ cs := by
      intro hin; exact h (by simp [hin])
    simp only [findCloseTag, matchCloseTag_not_langle tag c cs hc]
    exact ih hcs

theorem findCloseTag_append_no_langle (tag : List Char) :
    ∀ (a s : List Char), '<' ∉ a →
      findCloseTag tag (a ++ s) = findCloseTag tag s := by
  intro a
  induction a with
  | nil => intro s _; rfl
  | cons c a2 ih =>
    intro s h
    have hc : c ≠ '<' := by
      intro hcc; exact h (by simp [hcc])
    have ha2 : '<' ∉ a2 := by
      intro hin; exact h (by simp [hin])
    rw [List.cons_append]
    simp only [findCloseTag, matchCloseTag_not_langle tag c (a2 ++ s) hc]
    exact ih s ha2

theorem collapseWSFuel_congr :
    ∀ (f1 f2 : Nat) (s : List Char), s.length ≤ f1 → s.length ≤ f2 →
      collapseWSFuel f1 s = collapseWSFuel f2 s := by
  intro f1
  induction f1 with
  | zero =>
    intro f2 s h1 _
    have hs : s = [] := List.eq_nil_of_length_eq_zero (Nat.le_zero.mp h1)
    subst hs
    cases f2 <;> simp [collapseWSFuel]
  | succ g ih =>
    intro f2 s h1 h2
    cases s with
    | nil => cases f2 <;> simp [collapseWSFuel]
    | cons c cs =>
      cases f2 with
      | zero => simp at h2
      | succ g2 =>
        simp only [collapseWSFuel]
        simp only [List.length_cons] at h1 h2
        by_cases hc : isRegexSpace c
        · rw [if_pos hc, if_pos hc]
          have hd := dropRegexSpaces_length cs
          rw [ih g2 (dropRegexSpaces cs) (by omega) (by omega)]
        · rw [if_neg hc, if_neg hc, ih g2 cs (by omega) (by omega)]

theorem collapseWS_cons (c : Char) (cs : List Char) :
    collapseWS (c :: cs) =
      if isRegexSpace c then ' ' :: collapseWS (dropRegexSpaces cs)
      else c :: collapseWS cs := by
  show collapseWSFuel (c :: cs).length (c :: cs) = _
  simp only [List.length_cons, collapseWSFuel]
  by_cases hc : isRegexSpace c
  · rw [if_pos hc, if_pos hc]
    have hd := dropRegexSpaces_length cs
    rw [collapseWSFuel_congr cs.length (dropRegexSpaces cs).length
      (dropRegexSpaces cs) (by omega) (le_refl _)]
    rfl
  · rw [if_neg hc, if_neg hc]
    rfl

theorem dropCaseInsensitive_self :
    ∀ (tag r : List Char), dropCaseInsensitive tag (tag ++ r) = some r := by
  intro tag
  induction tag with
  | nil => intro r; rfl
  | cons t ts ih =>
    intro r
    simp only [List.cons_append, dropCaseInsensitive, if_pos rfl]
    exact ih r

theorem matchOpenTag_self (tag r : List Char) :
    matchOpenTag tag (openTagLit tag ++ r) = some r := by
  show matchOpenTag tag ('<' :: ((tag ++ ['>']) ++ r)) = some r
  simp only [matchOpenTag, if_pos rfl, List.append_assoc, List.cons_append,
    List.nil_append, dropCaseInsensitive_self]
  rfl

theorem matchCloseTag_self (tag r : List Char) :
    matchCloseTag tag (closeTagLit tag ++ r) = some r := by
  show matchCloseTag tag ('<' :: '/' :: ((tag ++ ['>']) ++ r)) = some r
  simp only [matchCloseTag, List.append_assoc, List.cons_append, List.nil_append]
  rw [if_pos (by simp)]
  simp only [dropCaseInsensitive_self]
  rfl

theorem matchStrayTag_open_self (tag r : List Char)
    (htag : tag.head? ≠ some '/') :
    matchStrayTag tag (openTagLit tag ++ r) = some r := by
  show matchStrayTag tag ('<' :: ((tag ++ ['>']) ++ r)) = some r
  simp only [matchStrayTag, if_pos rfl]
  cases tag with
  | nil =>
    show matchStrayTagRest [] ('>' :: r) = some r
    rfl
  | cons t ts =>
    have ht : t ≠ '/' := by
      intro hh; exact htag (by simp [hh])
    show matchStrayTagRest (t :: ts) (t :: (ts ++ ['>'] ++ r)) = some r
    simp only [matchStrayTagRest, if_neg ht]
    rw [show (t :: (ts ++ ['>'] ++ r)) = ((t :: ts) ++ ('>' :: r)) by simp]
    simp only [dropCaseInsensitive_self]
    rfl

theorem matchStrayTag_close_self (tag r : List Char) :
    matchStrayTag tag (closeTagLit tag ++ r) = some r := by
  show matchStrayTag tag ('<' :: '/' :: ((tag ++ ['>']) ++ r)) = some r
  simp only [matchStrayTag, if_pos rfl]
  show matchStrayTagRest tag ('/' :: ((tag ++ ['>']) ++ r)) = some r
  simp only [matchStrayTagRest, if_pos rfl]
  rw [show ((tag ++ ['>']) ++ r) = (tag ++ ('>' :: r)) by simp]
  simp only [dropCaseInsensitive_self]
  rfl

theorem findCloseTag_head (tag : List Char) (c : Char) (cs r : List Char)
    (h : matchCloseTag tag (c :: cs) = some r) :
    findCloseTag tag (c :: cs) = some r := by
  simp only [findCloseTag, h]

theorem matchPairedTag_open_no_close (tag c : List Char) (hc : '<' ∉ c) :
    matchPairedTag tag (openTagLit tag ++ c) = none := by
  simp only [matchPairedTag, matchOpenTag_self, Option.some_bind]
  exact findCloseTag_no_langle tag c hc

theorem matchPairedTag_span (tag b c : List Char) (hb : '<' ∉ b) :
    matchPairedTag tag (openTagLit tag ++ (b ++ (closeTagLit tag ++ c))) =
      some c := by
  simp only [matchPairedTag, matchOpenTag_self, Option.some_bind]
  rw [findCloseTag_append_no_langle tag b _ hb]
  exact findCloseTag_head tag '<' ('/' :: (tag ++ ['>']) ++ c) c
    (matchCloseTag_self tag c)

theorem stripPaired_skip1 (tag : List Char) (a u c : List Char)
    (ha : '<' ∉ a) (hu : '<' ∉ u) (hc : '<' ∉ c)
    (h1 : matchPairedTag tag ('<' :: (u ++ c)) = none) :
    stripPaired tag (a ++ ('<' :: (u ++ c))) = a ++ ('<' :: (u ++ c)) := by
  rw [stripPaired_append_no_langle tag a _ ha, stripPaired_cons, h1,
    stripPaired_append_no_langle tag u c hu, stripPaired_no_langle tag c hc]

theorem stripPaired_skip2 (tag : List Char) (a u b v c : List Char)
    (ha : '<' ∉ a) (hu : '<' ∉ u) (hb : '<' ∉ b) (hv : '<' ∉ v) (hc : '<' ∉ c)
    (h1 : matchPairedTag tag ('<' :: (u ++ (b ++ ('<' :: (v ++ c))))) = none)
    (h2 : matchPairedTag tag ('<' :: (v ++ c)) = none) :
    stripPaired tag (a ++ ('<' :: (u ++ (b ++ ('<' :: (v ++ c)))))) =
      a ++ ('<' :: (u ++ (b ++ ('<' :: (v ++ c))))) := by
  rw [stripPaired_append_no_langle tag a _ ha, stripPaired_cons, h1,
    stripPaired_append_no_langle tag u _ hu,
    stripPaired_append_no_langle tag b _ hb, stripPaired_cons, h2,
    stripPaired_append_no_langle tag v c hv, stripPaired_no_langle tag c hc]

theorem stripStray_skip1 (tag : List Char) (a u c : List Char)
    (ha : '<' ∉ a) (hu : '<' ∉ u) (hc : '<' ∉ c)
    (h1 : matchStrayTag tag ('<' :: (u ++ c)) = none) :
    stripStray tag (a ++ ('<' :: (u ++ c))) = a ++ ('<' :: (u ++ c)) := by
  rw [stripStray_append_no_langle tag a _ ha, stripStray_cons, h1,
    stripStray_append_no_langle tag u c hu, stripStray_no_langle tag c hc]

theorem stripStray_skip2 (tag : List Char) (a u b v c : List Char)
    (ha : '<' ∉ a) (hu : '<' ∉ u) (hb : '<' ∉ b) (hv : '<' ∉ v) (hc : '<' ∉ c)
    (h1 : matchStrayTag tag ('<' :: (u ++ (b ++ ('<' :: (v ++ c))))) = none)
    (h2 : matchStrayTag tag ('<' :: (v ++ c)) = none) :
    stripStray tag (a ++ ('<' :: (u ++ (b ++ ('<' :: (v ++ c)))))) =
      a ++ ('<' :: (u ++ (b ++ ('<' :: (v ++ c))))) := by
  rw [stripStray_append_no_langle tag a _ ha, stripStray_cons, h1,
    stripStray_append_no_langle tag u _ hu,
    stripStray_append_no_langle tag b _ hb, stripStray_cons, h2,
    stripStray_append_no_langle tag v c hv, stripStray_no_langle tag c hc]

theorem stripPaired_removes_span (tag : List Char) (a b c : List Char)
    (ha : '<' ∉ a) (hb : '<' ∉ b) (hc : '<' ∉ c) :
    stripPaired tag (a ++ (openTagLit tag ++ (b ++ (closeTagLit tag ++ c)))) =
      a ++ c := by
  rw [stripPaired_append_no_langle tag a _ ha]
  rw [show openTagLit tag ++ (b ++ (closeTagLit tag ++ c)) =
    '<' :: ((tag ++ ['>']) ++ (b ++ (closeTagLit tag ++ c))) from rfl]
  rw [stripPaired_cons]
  rw [show matchPairedTag tag
      ('<' :: ((tag ++ ['>']) ++ (b ++ (closeTagLit tag ++ c)))) =
    matchPairedTag tag (openTagLit tag ++ (b ++ (closeTagLit tag ++ c))) from rfl]
  rw [matchPairedTag_span tag b c hb]
  show a ++ stripPaired tag c = a ++ c
  rw [stripPaired_no_langle tag c hc]

theorem stripStray_removes_openTag (tag : List Char) (a c : List Char)
    (ha : '<' ∉ a) (hc : '<' ∉ c) (htag : tag.head? ≠ some '/') :
    stripStray tag (a ++ (openTagLit tag ++ c)) = a ++ c := by
  rw [stripStray_append_no_langle tag a _ ha]
  rw [show openTagLit tag ++ c = '<' :: ((tag ++ ['>']) ++ c) from rfl]
  rw [stripStray_cons]
  rw [show matchStrayTag tag ('<' :: ((tag ++ ['>']) ++ c)) =
    matchStrayTag tag (openTagLit tag ++ c) from rfl]
  rw [matchStrayTag_open_self tag c htag]
  show a ++ stripStray tag c = a ++ c
  rw [stripStray_no_langle tag c hc]

theorem stripStray_removes_closeTag (tag : List Char) (a c : List Char)
    (ha : '<' ∉ a) (hc : '<' ∉ c) :
    stripStray tag (a ++ (closeTagLit tag ++ c)) = a ++ c := by
  rw [stripStray_append_no_langle tag a _ ha]
  rw [show closeTagLit tag ++ c = '<' :: (('/' :: (tag ++ ['>'])) ++ c) from rfl]
  rw [stripStray_cons]
  rw [show matchStrayTag tag ('<' :: (('/' :: (tag ++ ['>'])) ++ c)) =
    matchStrayTag tag (closeTagLit tag ++ c) from rfl]
  rw [matchStrayTag_close_self tag c]
  show a ++ stripStray tag c = a ++ c
  rw [stripStray_no_langle tag c hc]

theorem stripReasoningTags_no_langle (s : List Char) (h : '<' ∉ s) :
    stripReasoningTags s = s := by
  simp only [stripReasoningTags]
  rw [stripPaired_no_langle tagThink s h, stripStray_no_langle tagThink s h,
    stripPaired_no_langle tagThinking s h, stripStray_no_langle tagThinking s h,
    stripPaired_no_langle tagReason s h, stripStray_no_langle tagReason s h,
    stripPaired_no_langle tagAnalysis s h, stripStray_no_langle tagAnalysis s h]

theorem no_langle_append {a c : List Char} (ha : '<' ∉ a) (hc : '<' ∉ c) :
    '<' ∉ a ++ c := by
  rw [List.mem_append]
  push_neg
  exact ⟨ha, hc⟩

theorem stripReasoningTags_span_think (a b c : List Char)
    (ha : '<' ∉ a) (hb : '<' ∉ b) (hc : '<' ∉ c) :
    stripReasoningTags
        (a ++ (openTagLit tagThink ++ (b ++ (closeTagLit tagThink ++ c)))) =
      a ++ c := by
  have hac : '<' ∉ a ++ c := no_langle_append ha hc
  have e1 : stripPaired tagThink
      (a ++ (openTagLit tagThink ++ (b ++ (closeTagLit tagThink ++ c)))) =
      a ++ c := stripPaired_removes_span tagThink a b c ha hb hc
  simp only [stripReasoningTags]
  rw [e1,
    stripStray_no_langle tagThink _ hac,
    stripPaired_no_langle tagThinking _ hac,
    stripStray_no_langle tagThinking _ hac,
    stripPaired_no_langle tagReason _ hac,
    stripStray_no_langle tagReason _ hac,
    stripPaired_no_langle tagAnalysis _ hac,
    stripStray_no_langle tagAnalysis _ hac]

theorem stripReasoningTags_openstray_think (a c : List Char)
    (ha : '<' ∉ a) (hc : '<' ∉ c) :
    stripReasoningTags (a ++ (openTagLit tagThink ++ c)) = a ++ c := by
  have hac : '<' ∉ a ++ c := no_langle_append ha hc
  have hu : '<' ∉ tagThink ++ ['>'] := by decide
  have e1 : stripPaired tagThink (a ++ (openTagLit tagThink ++ c)) =
      a ++ (openTagLit tagThink ++ c) :=
    stripPaired_skip1 tagThink a (tagThink ++ ['>']) c ha hu hc
      (matchPairedTag_open_no_close tagThink c hc)
  have e2 : stripStray tagThink (a ++ (openTagLit tagThink ++ c)) = a ++ c :=
    stripStray_removes_openTag tagThink a c ha hc (by decide)
  simp only [stripReasoningTags]
  rw [e1, e2,
    stripPaired_no_langle tagThinking _ hac,
    stripStray_no_langle tagThinking _ hac,
    stripPaired_no_langle tagReason _ hac,
    stripStray_no_langle tagReason _ hac,
    stripPaired_no_langle tagAnalysis _ hac,
    stripStray_no_langle tagAnalysis _ hac]

theorem stripReasoningTags_closestray_think (a c : List Char)
    (ha : '<' ∉ a) (hc : '<' ∉ c) :
    stripReasoningTags (a ++ (closeTagLit tagThink ++ c)) = a ++ c := by
  have hac : '<' ∉ a ++ c := no_langle_append ha hc
  have hv : '<' ∉ '/' :: (tagThink ++ ['>']) := by decide
  have e1 : stripPaired tagThink (a ++ (closeTagLit tagThink ++ c)) =
      a ++ (closeTagLit tagThink ++ c) :=
    stripPaired_skip1 tagThink a ('/' :: (tagThink ++ ['>'])) c ha hv hc rfl
  have e2 : stripStray tagThink (a ++ (closeTagLit tagThink ++ c)) = a ++ c :=
    stripStray_removes_closeTag tagThink a c ha hc
  simp only [stripReasoningTags]
  rw [e1, e2,
    stripPaired_no_langle tagThinking _ hac,
    stripStray_no_langle tagThinking _ hac,
    stripPaired_no_langle tagReason _ hac,
    stripStray_no_langle tagReason _ hac,
    stripPaired_no_langle tagAnalysis _ hac,
    stripStray_no_langle tagAnalysis _ hac]

theorem stripReasoningTags_span_thinking (a b c : List Char)
    (ha : '<' ∉ a) (hb : '<' ∉ b) (hc : '<' ∉ c) :
    stripReasoningTags
        (a ++ (openTagLit tagThinking ++ (b ++ (closeTagLit tagThinking ++ c)))) =
      a ++ c := by
  have hac : '<' ∉ a ++ c := no_langle_append ha hc
  have hu : '<' ∉ tagThinking ++ ['>'] := by decide
  have hv : '<' ∉ '/' :: (tagThinking ++ ['>']) := by decide
  have e1 : stripPaired tagThink (a ++ (openTagLit tagThinking ++ (b ++ (closeTagLit tagThinking ++ c)))) =
      (a ++ (openTagLit tagThinking ++ (b ++ (closeTagLit tagThinking ++ c)))) :=
    stripPaired_skip2 tagThink a (tagThinking ++ ['>']) b ('/' :: (tagThinking ++ ['>'])) c
      ha hu hb hv hc rfl rfl
  have e2 : stripStray tagThink (a ++ (openTagLit tagThinking ++ (b ++ (closeTagLit tagThinking ++ c)))) =
      (a ++ (openTagLit tagThinking ++ (b ++ (closeTagLit tagThinking ++ c)))) :=
    stripStray_skip2 tagThink a (tagThinking ++ ['>']) b ('/' :: (tagThinking ++ ['>'])) c
      ha hu hb hv hc rfl rfl
  have e3 : stripPaired tagThinking (a ++ (openTagLit tagThinking ++ (b ++ (closeTagLit tagThinking ++ c)))) =
      a ++ c := stripPaired_removes_span tagThinking a b c ha hb hc
  simp only [stripReasoningTags]
  rw [e1, e2, e3,
    stripStray_no_langle tagThinking _ hac,
    stripPaired_no_langle tagReason _ hac,
    stripStray_no_langle tagReason _ hac,
    stripPaired_no_langle tagAnalysis _ hac,
    stripStray_no_langle tagAnalysis _ hac]

theorem stripReasoningTags_openstray_thinking (a c : List Char)
    (ha : '<' ∉ a) (hc : '<' ∉ c) :
    stripReasoningTags (a ++ (openTagLit tagThinking ++ c)) = a ++ c := by
  have hac : '<' ∉ a ++ c := no_langle_append ha hc
  have hu : '<' ∉ tagThinking ++ ['>'] := by decide
  have e1 : stripPaired tagThink (a ++ (openTagLit tagThinking ++ c)) = (a ++ (openTagLit tagThinking ++ c)) :=
    stripPaired_skip1 tagThink a (tagThinking ++ ['>']) c ha hu hc rfl
  have e2 : stripStray tagThink (a ++ (openTagLit tagThinking ++ c)) = (a ++ (openTagLit tagThinking ++ c)) :=
    stripStray_skip1 tagThink a (tagThinking ++ ['>']) c ha hu hc rfl
  have e3 : stripPaired tagThinking (a ++ (openTagLit tagThinking ++ c)) = (a ++ (openTagLit tagThinking ++ c)) :=
    stripPaired_skip1 tagThinking a (tagThinking ++ ['>']) c ha hu hc
      (matchPairedTag_open_no_close tagThinking c hc)
  have e4 : stripStray tagThinking (a ++ (openTagLit tagThinking ++ c)) = a ++ c :=
    stripStray_removes_openTag tagThinking a c ha hc (by decide)
  simp only [stripReasoningTags]
  rw [e1, e2, e3, e4,
    stripPaired_no_langle tagReason _ hac,
    stripStray_no_langle tagReason _ hac,
    stripPaired_no_langle tagAnalysis _ hac,
    stripStray_no_langle tagAnalysis _ hac]

theorem stripReasoningTags_closestray_thinking (a c : List Char)
    (ha : '<' ∉ a) (hc : '<' ∉ c) :
    stripReasoningTags (a ++ (closeTagLit tagThinking ++ c)) = a ++ c := by
  have hac : '<' ∉ a ++ c := no_langle_append ha hc
  have hv : '<' ∉ '/' :: (tagThinking ++ ['>']) := by decide
  have e1 : stripPaired tagThink (a ++ (closeTagLit tagThinking ++ c)) = (a ++ (closeTagLit tagThinking ++ c)) :=
    stripPaired_skip1 tagThink a ('/' :: (tagThinking ++ ['>'])) c ha hv hc rfl
  have e2 : stripStray tagThink (a ++ (closeTagLit tagThinking ++ c)) = (a ++ (closeTagLit tagThinking ++ c)) :=
    stripStray_skip1 tagThink a ('/' :: (tagThinking ++ ['>'])) c ha hv hc rfl
  have e3 : stripPaired tagThinking (a ++ (closeTagLit tagThinking ++ c)) = (a ++ (closeTagLit tagThinking ++ c)) :=
    stripPaired_skip1 tagThinking a ('/' :: (tagThinking ++ ['>'])) c ha hv hc rfl
  have e4 : stripStray tagThinking (a ++ (closeTagLit tagThinking ++ c)) = a ++ c :=
    stripStray_removes_closeTag tagThinking a c ha hc
  simp only [stripReasoningTags]
  rw [e1, e2, e3, e4,
    stripPaired_no_langle tagReason _ hac,
    stripStray_no_langle tagReason _ hac,
    stripPaired_no_langle tagAnalysis _ hac,
    stripStray_no_langle tagAnalysis _ hac]

theorem stripReasoningTags_span_reason (a b c : List Char)
    (ha : '<' ∉ a) (hb : '<' ∉ b) (hc : '<' ∉ c) :
    stripReasoningTags
        (a ++ (openTagLit tagReason ++ (b ++ (closeTagLit tagReason ++ c)))) =
      a ++ c := by
  have hac : '<' ∉ a ++ c := no_langle_append ha hc
  have hu : '<' ∉ tagReason ++ ['>'] := by decide
  have hv : '<' ∉ '/' :: (tagReason ++ ['>']) := by decide
  have e1 : stripPaired tagThink (a ++ (openTagLit tagReason ++ (b ++ (closeTagLit tagReason ++ c)))) =
      (a ++ (openTagLit tagReason ++ (b ++ (closeTagLit tagReason ++ c)))) :=
    stripPaired_skip2 tagThink a (tagReason ++ ['>']) b ('/' :: (tagReason ++ ['>'])) c
      ha hu hb hv hc rfl rfl
  have e2 : stripStray tagThink (a ++ (openTagLit tagReason ++ (b ++ (closeTagLit tagReason ++ c)))) =
      (a ++ (openTagLit tagReason ++ (b ++ (closeTagLit tagReason ++ c)))) :=
    stripStray_skip2 tagThink a (tagReason ++ ['>']) b ('/' :: (tagReason ++ ['>'])) c
      ha hu hb hv hc rfl rfl
  have e3 : stripPaired tagThinking (a ++ (openTagLit tagReason ++ (b ++ (closeTagLit tagReason ++ c)))) =
      (a ++ (openTagLit tagReason ++ (b ++ (closeTagLit tagReason ++ c)))) :=
    stripPaired_skip2 tagThinking a (tagReason ++ ['>']) b ('/' :: (tagReason ++ ['>'])) c
      ha hu hb hv hc rfl rfl
  have e4 : stripStray tagThinking (a ++ (openTagLit tagReason ++ (b ++ (closeTagLit tagReason ++ c)))) =
      (a ++ (openTagLit tagReason ++ (b ++ (closeTagLit tagReason ++ c)))) :=
    stripStray_skip2 tagThinking a (tagReason ++ ['>']) b ('/' :: (tagReason ++ ['>'])) c
      ha hu hb hv hc rfl rfl
  have e5 : stripPaired tagReason (a ++ (openTagLit tagReason ++ (b ++ (closeTagLit tagReason ++ c)))) =
      a ++ c := stripPaired_removes_span tagReason a b c ha hb hc
  simp only [stripReasoningTags]
  rw [e1, e2, e3, e4, e5,
    stripStray_no_langle tagReason _ hac,
    stripPaired_no_langle tagAnalysis _ hac,
    stripStray_no_langle tagAnalysis _ hac]

theorem stripReasoningTags_openstray_reason (a c : List Char)
    (ha : '<' ∉ a) (hc : '<' ∉ c) :
    stripReasoningTags (a ++ (openTagLit tagReason ++ c)) = a ++ c := by
  have hac : '<' ∉ a ++ c := no_langle_append ha hc
  have hu : '<' ∉ tagReason ++ ['>'] := by decide
  have e1 : stripPaired tagThink (a ++ (openTagLit tagReason ++ c)) = (a ++ (openTagLit tagReason ++ c)) :=
    stripPaired_skip1 tagThink a (tagReason ++ ['>']) c ha hu hc rfl
  have e2 : stripStray tagThink (a ++ (openTagLit tagReason ++ c)) = (a ++ (openTagLit tagReason ++ c)) :=
    stripStray_skip1 tagThink a (tagReason ++ ['>']) c ha hu hc rfl
  have e3 : stripPaired tagThinking (a ++ (openTagLit tagReason ++ c)) = (a ++ (openTagLit tagReason ++ c)) :=
    stripPaired_skip1 tagThinking a (tagReason ++ ['>']) c ha hu hc rfl
  have e4 : stripStray tagThinking (a ++ (openTagLit tagReason ++ c)) = (a ++ (openTagLit tagReason ++ c)) :=
    stripStray_skip1 tagThinking a (tagReason ++ ['>']) c ha hu hc rfl
  have e5 : stripPaired tagReason (a ++ (openTagLit tagReason ++ c)) = (a ++ (openTagLit tagReason ++ c)) :=
    stripPaired_skip1 tagReason a (tagReason ++ ['>']) c ha hu hc
      (matchPairedTag_open_no_close tagReason c hc)
  have e6 : stripStray tagReason (a ++ (openTagLit tagReason ++ c)) = a ++ c :=
    stripStray_removes_openTag tagReason a c ha hc (by decide)
  simp only [stripReasoningTags]
  rw [e1, e2, e3, e4, e5, e6,
    stripPaired_no_langle tagAnalysis _ hac,
    stripStray_no_langle tagAnalysis _ hac]

theorem stripReasoningTags_closestray_reason (a c : List Char)
    (ha : '<' ∉ a) (hc : '<' ∉ c) :
    stripReasoningTags (a ++ (closeTagLit tagReason ++ c)) = a ++ c := by
  have hac : '<' ∉ a ++ c := no_langle_append ha hc
  have hv : '<' ∉ '/' :: (tagReason ++ ['>']) := by decide
  have e1 : stripPaired tagThink (a ++ (closeTagLit tagReason ++ c)) = (a ++ (closeTagLit tagReason ++ c)) :=
    stripPaired_skip1 tagThink a ('/' :: (tagReason ++ ['>'])) c ha hv hc rfl
  have e2 : stripStray tagThink (a ++ (closeTagLit tagReason ++ c)) = (a ++ (closeTagLit tagReason ++ c)) :=
    stripStray_skip1 tagThink a ('/' :: (tagReason ++ ['>'])) c ha hv hc rfl
  have e3 : stripPaired tagThinking (a ++ (closeTagLit tagReason ++ c)) = (a ++ (closeTagLit tagReason ++ c)) :=
    stripPaired_skip1 tagThinking a ('/' :: (tagReason ++ ['>'])) c ha hv hc rfl
  have e4 : stripStray tagThinking (a ++ (closeTagLit tagReason ++ c)) = (a ++ (closeTagLit tagReason ++ c)) :=
    stripStray_skip1 tagThinking a ('/' :: (tagReason ++ ['>'])) c ha hv hc rfl
  have e5 : stripPaired tagReason (a ++ (closeTagLit tagReason ++ c)) = (a ++ (closeTagLit tagReason ++ c)) :=
    stripPaired_skip1 tagReason a ('/' :: (tagReason ++ ['>'])) c ha hv hc rfl
  have e6 : stripStray tagReason (a ++ (closeTagLit tagReason ++ c)) = a ++ c :=
    stripStray_removes_closeTag tagReason a c ha hc
  simp only [stripReasoningTags]
  rw [e1, e2, e3, e4, e5, e6,
    stripPaired_no_langle tagAnalysis _ hac,
    stripStray_no_langle tagAnalysis _ hac]

theorem stripReasoningTags_span_analysis (a b c : List Char)
    (ha : '<' ∉ a) (hb : '<' ∉ b) (hc : '<' ∉ c) :
    stripReasoningTags
        (a ++ (openTagLit tagAnalysis ++ (b ++ (closeTagLit tagAnalysis ++ c)))) =
      a ++ c := by
  have hac : '<' ∉ a ++ c := no_langle_append ha hc
  have hu : '<' ∉ tagAnalysis ++ ['>'] := by decide
  have hv : '<' ∉ '/' :: (tagAnalysis ++ ['>']) := by decide
  have e1 : stripPaired tagThink (a ++ (openTagLit tagAnalysis ++ (b ++ (closeTagLit tagAnalysis ++ c)))) =
      (a ++ (openTagLit tagAnalysis ++ (b ++ (closeTagLit tagAnalysis ++ c)))) :=
    stripPaired_skip2 tagThink a (tagAnalysis ++ ['>']) b ('/' :: (tagAnalysis ++ ['>'])) c
      ha hu hb hv hc rfl rfl
  have e2 : stripStray tagThink (a ++ (openTagLit tagAnalysis ++ (b ++ (closeTagLit tagAnalysis ++ c)))) =
      (a ++ (openTagLit tagAnalysis ++ (b ++ (closeTagLit tagAnalysis ++ c)))) :=
    stripStray_skip2 tagThink a (tagAnalysis ++ ['>']) b ('/' :: (tagAnalysis ++ ['>'])) c
      ha hu hb hv hc rfl rfl
  have e3 : stripPaired tagThinking (a ++ (openTagLit tagAnalysis ++ (b ++ (closeTagLit tagAnalysis ++ c)))) =
      (a ++ (openTagLit tagAnalysis ++ (b ++ (closeTagLit tagAnalysis ++ c)))) :=
    stripPaired_skip2 tagThinking a (tagAnalysis ++ ['>']) b ('/' :: (tagAnalysis ++ ['>'])) c
      ha hu hb hv hc rfl rfl
  have e4 : stripStray tagThinking (a ++ (openTagLit tagAnalysis ++ (b ++ (closeTagLit tagAnalysis ++ c)))) =
      (a ++ (openTagLit tagAnalysis ++ (b ++ (closeTagLit tagAnalysis ++ c)))) :=
    stripStray_skip2 tagThinking a (tagAnalysis ++ ['>']) b ('/' :: (tagAnalysis ++ ['>'])) c
      ha hu hb hv hc rfl rfl
  have e5 : stripPaired tagReason (a ++ (openTagLit tagAnalysis ++ (b ++ (closeTagLit tagAnalysis ++ c)))) =
      (a ++ (openTagLit tagAnalysis ++ (b ++ (closeTagLit tagAnalysis ++ c)))) :=
    stripPaired_skip2 tagReason a (tagAnalysis ++ ['>']) b ('/' :: (tagAnalysis ++ ['>'])) c
      ha hu hb hv hc rfl rfl
  have e6 : stripStray tagReason (a ++ (openTagLit tagAnalysis ++ (b ++ (closeTagLit tagAnalysis ++ c)))) =
      (a ++ (openTagLit tagAnalysis ++ (b ++ (closeTagLit tagAnalysis ++ c)))) :=
    stripStray_skip2 tagReason a (tagAnalysis ++ ['>']) b ('/' :: (tagAnalysis ++ ['>'])) c
      ha hu hb hv hc rfl rfl
  have e7 : stripPaired tagAnalysis (a ++ (openTagLit tagAnalysis ++ (b ++ (closeTagLit tagAnalysis ++ c)))) =
      a ++ c := stripPaired_removes_span tagAnalysis a b c ha hb hc
  simp only [stripReasoningTags]
  rw [e1, e2, e3, e4, e5, e6, e7,
    stripStray_no_langle tagAnalysis _ hac]

theorem stripReasoningTags_openstray_analysis (a c : List Char)
    (ha : '<' ∉ a) (hc : '<' ∉ c) :
    stripReasoningTags (a ++ (openTagLit tagAnalysis ++ c)) = a ++ c := by
  have hac : '<' ∉ a ++ c := no_langle_append ha hc
  have hu : '<' ∉ tagAnalysis ++ ['>'] := by decide
  have e1 : stripPaired tagThink (a ++ (openTagLit tagAnalysis ++ c)) = (a ++ (openTagLit tagAnalysis ++ c)) :=
    stripPaired_skip1 tagThink a (tagAnalysis ++ ['>']) c ha hu hc rfl
  have e2 : stripStray tagThink (a ++ (openTagLit tagAnalysis ++ c)) = (a ++ (openTagLit tagAnalysis ++ c)) :=
    stripStray_skip1 tagThink a (tagAnalysis ++ ['>']) c ha hu hc rfl
  have e3 : stripPaired tagThinking (a ++ (openTagLit tagAnalysis ++ c)) = (a ++ (openTagLit tagAnalysis ++ c)) :=
    stripPaired_skip1 tagThinking a (tagAnalysis ++ ['>']) c ha hu hc rfl
  have e4 : stripStray tagThinking (a ++ (openTagLit tagAnalysis ++ c)) = (a ++ (openTagLit tagAnalysis ++ c)) :=
    stripStray_skip1 tagThinking a (tagAnalysis ++ ['>']) c ha hu hc rfl
  have e5 : stripPaired tagReason (a ++ (openTagLit tagAnalysis ++ c)) = (a ++ (openTagLit tagAnalysis ++ c)) :=
    stripPaired_skip1 tagReason a (tagAnalysis ++ ['>']) c ha hu hc rfl
  have e6 : stripStray tagReason (a ++ (openTagLit tagAnalysis ++ c)) = (a ++ (openTagLit tagAnalysis ++ c)) :=
    stripStray_skip1 tagReason a (tagAnalysis ++ ['>']) c ha hu hc rfl
  have e7 : stripPaired tagAnalysis (a ++ (openTagLit tagAnalysis ++ c)) = (a ++ (openTagLit tagAnalysis ++ c)) :=
    stripPaired_skip1 tagAnalysis a (tagAnalysis ++ ['>']) c ha hu hc
      (matchPairedTag_open_no_close tagAnalysis c hc)
  have e8 : stripStray tagAnalysis (a ++ (openTagLit tagAnalysis ++ c)) = a ++ c :=
    stripStray_removes_openTag tagAnalysis a c ha hc (by decide)
  simp only [stripReasoningTags]
  rw [e1, e2, e3, e4, e5, e6, e7, e8]

theorem stripReasoningTags_closestray_analysis (a c : List Char)
    (ha : '<' ∉ a) (hc : '<' ∉ c) :
    stripReasoningTags (a ++ (closeTagLit tagAnalysis ++ c)) = a ++ c := by
  have hac : '<' ∉ a ++ c := no_langle_append ha hc
  have hv : '<' ∉ '/' :: (tagAnalysis ++ ['>']) := by decide
  have e1 : stripPaired tagThink (a ++ (closeTagLit tagAnalysis ++ c)) = (a ++ (closeTagLit tagAnalysis ++ c)) :=
    stripPaired_skip1 tagThink a ('/' :: (tagAnalysis ++ ['>'])) c ha hv hc rfl
  have e2 : stripStray tagThink (a ++ (closeTagLit tagAnalysis ++ c)) = (a ++ (closeTagLit tagAnalysis ++ c)) :=
    stripStray_skip1 tagThink a ('/' :: (tagAnalysis ++ ['>'])) c ha hv hc rfl
  have e3 : stripPaired tagThinking (a ++ (closeTagLit tagAnalysis ++ c)) = (a ++ (closeTagLit tagAnalysis ++ c)) :=
    stripPaired_skip1 tagThinking a ('/' :: (tagAnalysis ++ ['>'])) c ha hv hc rfl
  have e4 : stripStray tagThinking (a ++ (closeTagLit tagAnalysis ++ c)) = (a ++ (closeTagLit tagAnalysis ++ c)) :=
    stripStray_skip1 tagThinking a ('/' :: (tagAnalysis ++ ['>'])) c ha hv hc rfl
  have e5 : stripPaired tagReason (a ++ (closeTagLit tagAnalysis ++ c)) = (a ++ (closeTagLit tagAnalysis ++ c)) :=
    stripPaired_skip1 tagReason a ('/' :: (tagAnalysis ++ ['>'])) c ha hv hc rfl
  have e6 : stripStray tagReason (a ++ (closeTagLit tagAnalysis ++ c)) = (a ++ (closeTagLit tagAnalysis ++ c)) :=
    stripStray_skip1 tagReason a ('/' :: (tagAnalysis ++ ['>'])) c ha hv hc rfl
  have e7 : stripPaired tagAnalysis (a ++ (closeTagLit tagAnalysis ++ c)) = (a ++ (closeTagLit tagAnalysis ++ c)) :=
    stripPaired_skip1 tagAnalysis a ('/' :: (tagAnalysis ++ ['>'])) c ha hv hc rfl
  have e8 : stripStray tagAnalysis (a ++ (closeTagLit tagAnalysis ++ c)) = a ++ c :=
    stripStray_removes_closeTag tagAnalysis a c ha hc
  simp only [stripReasoningTags]
  rw [e1, e2, e3, e4, e5, e6, e7, e8]

theorem dropRegexSpaces_head :
    ∀ (s : List Char) (d : Char), (dropRegexSpaces s).head? = some d →
      isRegexSpace d = false := by
  intro s
  induction s with
  | nil => intro d h; simp [dropRegexSpaces] at h
  | cons c cs ih =>
    intro d h
    simp only [dropRegexSpaces] at h
    by_cases hc : isRegexSpace c
    · rw [if_pos hc] at h
      exact ih d h
    · rw [if_neg hc] at h
      simp at h
      rw [← h]
      simpa using hc

theorem mem_dropRegexSpaces (ch : Char) :
    ∀ s : List Char, ch ∈ dropRegexSpaces s → ch ∈ s := by
  intro s
  induction s with
  | nil => intro h; simp [dropRegexSpaces] at h
  | cons c cs ih =>
    intro h
    simp only [dropRegexSpaces] at h
    by_cases hc : isRegexSpace c
    · rw [if_pos hc] at h
      exact List.mem_cons_of_mem c (ih h)
    · rw [if_neg hc] at h
      exact h

theorem collapseWSFuel_space_char :
    ∀ (f : Nat) (s : List Char), s.length ≤ f →
      ∀ ch ∈ collapseWSFuel f s, isRegexSpace ch = true → ch = ' ' := by
  intro f
  induction f with
  | zero =>
    intro s hf ch hm
    have : s = [] := List.eq_nil_of_length_eq_zero (Nat.le_zero.mp hf)
    subst this
    simp [collapseWSFuel] at hm
  | succ g ih =>
    intro s hf ch hm hsp
    cases s with
    | nil => simp [collapseWSFuel] at hm
    | cons c cs =>
      simp only [collapseWSFuel] at hm
      simp only [List.length_cons] at hf
      by_cases hc : isRegexSpace c
      · rw [if_pos hc] at hm
        rcases List.mem_cons.mp hm with h | h
        · exact h
        · have hd := dropRegexSpaces_length cs
          exact ih (dropRegexSpaces cs) (by omega) ch h hsp
      · rw [if_neg hc] at hm
        rcases List.mem_cons.mp hm with h | h
        · subst h; exact absurd hsp (by simp [hc])
        · exact ih cs (by omega) ch h hsp

theorem collapseWSFuel_head :
    ∀ (f : Nat) (s : List Char),
      (∀ d, s.head? = some d → isRegexSpace d = false) →
      ∀ d, (collapseWSFuel f s).head? = some d → isRegexSpace d = false := by
  intro f s hs d h
  cases f with
  | zero => exact hs d h
  | succ g =>
    cases s with
    | nil => simp [collapseWSFuel] at h
    | cons c cs =>
      have hc : isRegexSpace c = false := hs c rfl
      simp only [collapseWSFuel, hc] at h
      simp at h
      rw [← h]
      exact hc

theorem collapseWSFuel_chain :
    ∀ (f : Nat) (s : List Char), s.length ≤ f →
      List.Chain' (fun x y => isRegexSpace x = true → isRegexSpace y = false)
        (collapseWSFuel f s) := by
  intro f
  induction f with
  | zero =>
    intro s hf
    have : s = [] := List.eq_nil_of_length_eq_zero (Nat.le_zero.mp hf)
    subst this
    simp [collapseWSFuel]
  | succ g ih =>
    intro s hf
    cases s with
    | nil => simp [collapseWSFuel]
    | cons c cs =>
      simp only [collapseWSFuel]
      simp only [List.length_cons] at hf
      by_cases hc : isRegexSpace c
      · rw [if_pos hc]
        have hd := dropRegexSpaces_length cs
        rw [List.chain'_cons']
        constructor
        · intro y hy
          intro _
          exact collapseWSFuel_head g (dropRegexSpaces cs)
            (dropRegexSpaces_head cs) y (by simpa using hy)
        · exact ih (dropRegexSpaces cs) (by omega)
      · rw [if_neg hc]
        rw [List.chain'_cons']
        constructor
        · intro y _ hcx
          exact absurd hcx (by simp [hc])
        · exact ih cs (by omega)

theorem collapseWSFuel_all_space :
    ∀ (f : Nat) (s : List Char), (∀ ch ∈ s, goIsSpace ch = true) →
      ∀ ch ∈ collapseWSFuel f s, goIsSpace ch = true := by
  intro f
  induction f with
  | zero => intro s hs ch hm; exact hs ch hm
  | succ g ih =>
    intro s hs ch hm
    cases s with
    | nil => simp [collapseWSFuel] at hm
    | cons c cs =>
      simp only [collapseWSFuel] at hm
      by_cases hc : isRegexSpace c
      · rw [if_pos hc] at hm
        rcases List.mem_cons.mp hm with h | h
        · subst h; decide
        · exact ih (dropRegexSpaces cs)
            (fun x hx => hs x (List.mem_cons_of_mem c (mem_dropRegexSpaces x cs hx)))
            ch h
      · rw [if_neg hc] at hm
        rcases List.mem_cons.mp hm with h | h
        · rw [h]; exact hs c (List.mem_cons_self c cs)
        · exact ih cs (fun x hx => hs x (List.mem_cons_of_mem c hx)) ch h

theorem TrimSpace_contiguous (s : List Char) : TrimSpace s <:+: s := by
  have h1 : List.dropWhile (fun c => goIsSpace c) s <:+ s :=
    List.dropWhile_suffix _
  have h2 : List.dropWhile (fun c => goIsSpace c)
      (List.dropWhile (fun c => goIsSpace c) s).reverse <:+
      (List.dropWhile (fun c => goIsSpace c) s).reverse :=
    List.dropWhile_suffix _
  have h3 : TrimSpace s <+: List.dropWhile (fun c => goIsSpace c) s := by
    have := List.reverse_prefix.mpr h2
    simpa [TrimSpace] using this
  exact h3.isInfix.trans h1.isInfix

theorem TrimSpace_head (s : List Char) :
    ∀ d, (TrimSpace s).head? = some d → goIsSpace d = false := by
  intro d h
  have h3 : TrimSpace s <+: List.dropWhile (fun c => goIsSpace c) s := by
    have := List.reverse_prefix.mpr
      (List.dropWhile_suffix (l := (List.dropWhile (fun c => goIsSpace c) s).reverse)
        (fun c => goIsSpace c))
    simpa [TrimSpace] using this
  obtain ⟨rest, hrest⟩ := h3
  cases htr : TrimSpace s with
  | nil => rw [htr] at h; simp at h
  | cons x xs =>
    rw [htr] at h hrest
    simp at h
    have : (List.dropWhile (fun c => goIsSpace c) s).head? = some x := by
      rw [← hrest]
      rfl
    have hx := List.head?_dropWhile_not (fun c => goIsSpace c) s
    rw [this] at hx
    simp at hx
    rw [← h]
    simpa using hx

theorem TrimSpace_last (s : List Char) :
    ∀ d, (TrimSpace s).getLast? = some d → goIsSpace d = false := by
  intro d h
  have hrev : (TrimSpace s).getLast? =
      (List.dropWhile (fun c => goIsSpace c)
        (List.dropWhile (fun c => goIsSpace c) s).reverse).head? := by
    show (List.dropWhile (fun c => goIsSpace c)
      (List.dropWhile (fun c => goIsSpace c) s).reverse).reverse.getLast? = _
    rw [← List.head?_reverse, List.reverse_reverse]
  rw [hrev] at h
  have hx := List.head?_dropWhile_not (fun c => goIsSpace c)
    (List.dropWhile (fun c => goIsSpace c) s).reverse
  rw [h] at hx
  simpa using hx

theorem TrimSpace_all_space (s : List Char)
    (hs : ∀ ch ∈ s, goIsSpace ch = true) : TrimSpace s = [] := by
  have h1 : List.dropWhile (fun c => goIsSpace c) s = [] :=
    List.dropWhile_eq_nil_iff.mpr (fun x hx => by simpa using hs x hx)
  simp [TrimSpace, h1]

theorem cleanSummaryContent_congr (x y : List Char)
    (h : stripReasoningTags x = stripReasoningTags y) :
    cleanSummaryContent x = cleanSummaryContent y := by
  simp only [cleanSummaryContent, h]

theorem noAdjacentSpaces_iff_chain :
    ∀ l : List Char, noAdjacentSpaces l = true ↔
      List.Chain' (fun x y => isRegexSpace x = true → isRegexSpace y = false) l := by
  intro l
  induction l with
  | nil => simp [noAdjacentSpaces]
  | cons x rest ih =>
    cases rest with
    | nil => simp [noAdjacentSpaces]
    | cons y rest2 =>
      rw [List.chain'_cons]
      simp only [noAdjacentSpaces, Bool.and_eq_true, Bool.not_eq_true']
      rw [ih]
      constructor
      · rintro ⟨h1, h2⟩
        refine ⟨?_, h2⟩
        intro hx
        rcases hy : isRegexSpace y with _ | _
        · rfl
        · rw [hx, hy] at h1; simp at h1
      · rintro ⟨h1, h2⟩
        refine ⟨?_, h2⟩
        rcases hx : isRegexSpace x with _ | _
        · simp
        · simp [h1 hx]

theorem cleanSummaryContent_removes_tags :
    (∀ tag, tag ∈ [tagThink, tagThinking, tagReason, tagAnalysis] →
      ∀ a b c : List Char, '<' ∉ a → '<' ∉ b → '<' ∉ c →
        cleanSummaryContent
            (a ++ (openTagLit tag ++ (b ++ (closeTagLit tag ++ c)))) =
          cleanSummaryContent (a ++ c) ∧
        cleanSummaryContent (a ++ (openTagLit tag ++ c)) =
          cleanSummaryContent (a ++ c) ∧
        cleanSummaryContent (a ++ (closeTagLit tag ++ c)) =
          cleanSummaryContent (a ++ c)) := by
  intro tag htag a b c ha hb hc
  have hac : '<' ∉ a ++ c := no_langle_append ha hc
  have hr : stripReasoningTags (a ++ c) = a ++ c :=
    stripReasoningTags_no_langle (a ++ c) hac
  simp only [List.mem_cons, List.not_mem_nil, or_false] at htag
  rcases htag with rfl | rfl | rfl | rfl
  · exact ⟨cleanSummaryContent_congr _ _
        ((stripReasoningTags_span_think a b c ha hb hc).trans hr.symm),
      cleanSummaryContent_congr _ _
        ((stripReasoningTags_openstray_think a c ha hc).trans hr.symm),
      cleanSummaryContent_congr _ _
        ((stripReasoningTags_closestray_think a c ha hc).trans hr.symm)⟩
  · exact ⟨cleanSummaryContent_congr _ _
        ((stripReasoningTags_span_thinking a b c ha hb hc).trans hr.symm),
      cleanSummaryContent_congr _ _
        ((stripReasoningTags_openstray_thinking a c ha hc).trans hr.symm),
      cleanSummaryContent_congr _ _
        ((stripReasoningTags_closestray_thinking a c ha hc).trans hr.symm)⟩
  · exact ⟨cleanSummaryContent_congr _ _
        ((stripReasoningTags_span_reason a b c ha hb hc).trans hr.symm),
      cleanSummaryContent_congr _ _
        ((stripReasoningTags_openstray_reason a c ha hc).trans hr.symm),
      cleanSummaryContent_congr _ _
        ((stripReasoningTags_closestray_reason a c ha hc).trans hr.symm)⟩
  · exact ⟨cleanSummaryContent_congr _ _
        ((stripReasoningTags_span_analysis a b c ha hb hc).trans hr.symm),
      cleanSummaryContent_congr _ _
        ((stripReasoningTags_openstray_analysis a c ha hc).trans hr.symm),
      cleanSummaryContent_congr _ _
        ((stripReasoningTags_closestray_analysis a c ha hc).trans hr.symm)⟩

theorem cleanSummaryContent_whitespace_fallback :
    (∀ s : List Char, (∀ ch ∈ s, goIsSpace ch = true) →
      cleanSummaryContent s = filteredFallbackMessage) := by
  intro s hsp
  have hlt : '<' ∉ s := by
    intro hin
    have := hsp '<' hin
    simp [goIsSpace] at this
  have h1 : stripReasoningTags s = s := stripReasoningTags_no_langle s hlt
  have h2 : ∀ ch ∈ collapseWS s, goIsSpace ch = true :=
    collapseWSFuel_all_space s.length s hsp
  have h3 : TrimSpace (collapseWS s) = [] := TrimSpace_all_space _ h2
  simp only [cleanSummaryContent, h1, h3]
  simp

theorem filteredFallbackMessage_normal_form :
    filteredFallbackMessage ≠ [] ∧
    (∀ ch ∈ filteredFallbackMessage, isRegexSpace ch = true → ch = ' ') ∧
    noAdjacentSpaces filteredFallbackMessage = true ∧
    (∀ d, filteredFallbackMessage.head? = some d → goIsSpace d = false) ∧
    (∀ d, filteredFallbackMessage.getLast? = some d → goIsSpace d = false) := by
  refine ⟨by decide, by decide, by decide, ?_, ?_⟩
  · intro d h
    rw [show filteredFallbackMessage.head? = some 'S' from rfl] at h
    injection h with h
    rw [← h]
    decide
  · intro d h
    rw [show filteredFallbackMessage.getLast? = some 'n' from rfl] at h
    injection h with h
    rw [← h]
    decide

theorem cleanSummaryContent_normal_form :
    (∀ s : List Char,
      cleanSummaryContent s ≠ [] ∧
      (∀ ch ∈ cleanSummaryContent s, isRegexSpace ch = true → ch = ' ') ∧
      noAdjacentSpaces (cleanSummaryContent s) = true ∧
      (∀ d, (cleanSummaryContent s).head? = some d → goIsSpace d = false) ∧
      (∀ d, (cleanSummaryContent s).getLast? = some d → goIsSpace d = false)) := by
  intro s
  by_cases hw : TrimSpace (collapseWS (stripReasoningTags s)) = []
  · have hclean : cleanSummaryContent s = filteredFallbackMessage := by
      simp only [cleanSummaryContent, hw]
      simp
    rw [hclean]
    exact filteredFallbackMessage_normal_form
  · have hclean : cleanSummaryContent s =
        TrimSpace (collapseWS (stripReasoningTags s)) := by
      simp only [cleanSummaryContent, if_neg hw]
    rw [hclean]
    refine ⟨hw, ?_, ?_, TrimSpace_head _, TrimSpace_last _⟩
    · intro ch hm hsp
      have hmem : ch ∈ collapseWS (stripReasoningTags s) :=
        (TrimSpace_contiguous _).subset hm
      exact collapseWSFuel_space_char (stripReasoningTags s).length
        (stripReasoningTags s) (le_refl _) ch hmem hsp
    · have hch : List.Chain'
          (fun x y => isRegexSpace x = true → isRegexSpace y = false)
          (collapseWS (stripReasoningTags s)) :=
        collapseWSFuel_chain (stripReasoningTags s).length
          (stripReasoningTags s) (le_refl _)
      have hinf := TrimSpace_contiguous (collapseWS (stripReasoningTags s))
      exact (noAdjacentSpaces_iff_chain _).mpr ( List.Chain'.infix hch hinf)

theorem cleanSummaryContent_sanitization :
    (∀ tag, tag ∈ [tagThink, tagThinking, tagReason, tagAnalysis] →
      ∀ a b c : List Char, '<' ∉ a → '<' ∉ b → '<' ∉ c →
        cleanSummaryContent
            (a ++ (openTagLit tag ++ (b ++ (closeTagLit tag ++ c)))) =
          cleanSummaryContent (a ++ c) ∧
        cleanSummaryContent (a ++ (openTagLit tag ++ c)) =
          cleanSummaryContent (a ++ c) ∧
        cleanSummaryContent (a ++ (closeTagLit tag ++ c)) =
          cleanSummaryContent (a ++ c)) ∧
    (∀ s : List Char, (∀ ch ∈ s, goIsSpace ch = true) →
      cleanSummaryContent s = filteredFallbackMessage) ∧
    (∀ s : List Char,
      cleanSummaryContent s ≠ [] ∧
      (∀ ch ∈ cleanSummaryContent s, isRegexSpace ch = true → ch = ' ') ∧
      noAdjacentSpaces (cleanSummaryContent s) = true ∧
      (∀ d, (cleanSummaryContent s).head? = some d → goIsSpace d = false) ∧
      (∀ d, (cleanSummaryContent s).getLast? = some d → goIsSpace d = false)) :=
  ⟨cleanSummaryContent_removes_tags, cleanSummaryContent_whitespace_fallback,
    cleanSummaryContent_normal_form⟩

theorem cleanSummaryContent_sanitization_witness :
    cleanSummaryContent
        (['A', ' '] ++ (openTagLit tagThink ++
          (['s'] ++ (closeTagLit tagThink ++ [' ', 'B'])))) =
      cleanSummaryContent (['A', ' '] ++ [' ', 'B']) ∧
    cleanSummaryContent [' ', '\t', '\n'] = filteredFallbackMessage := by
  constructor
  · exact (cleanSummaryContent_sanitization.1 tagThink
      (List.mem_cons_self _ _)
      ['A', ' '] ['s'] [' ', 'B'] (by decide) (by decide) (by decide)).1
  · exact cleanSummaryContent_sanitization.2.1 [' ', '\t', '\n'] (by decide)
